import Mathlib

/-!
Shallow embedding of the uploader repository core: the import-time
material/geometry normalization pipeline (src/unnamed/part_000 and
src/src/core/importManager.js), the selection registry
(src/src/core/selectionManager.js, second class), the undo log
(src/src/core/undoManager.js), and the anchor-relative transform
propagation (src/src/core/transformManager.js).  Numeric values are
modelled over the rationals; IEEE non-finite inputs (NaN and the two
infinities) are modelled by a dedicated sum type because the source
`clamp` helper branches on `Number.isFinite`.
-/

namespace Uploader

/-- Model of a JavaScript number as seen by the `clamp` helper: either a
finite value (a rational) or one of the non-finite values NaN, plus and
minus infinity. -/
inductive JSNum where
  | finite (q : ℚ)
  | nan
  | posInf
  | negInf
deriving DecidableEq

/-- Whether a `JSNum` is finite; mirrors `Number.isFinite`. -/
def JSNum.isFinite : JSNum → Bool
  | .finite _ => true
  | _ => false

/-- Embedding of the `clamp` helper in src/unnamed/part_000 lines 23-34:
a non-finite value collapses to the lower bound `min`; otherwise the value
is clamped into the interval. -/
def clamp (value : JSNum) (min max : ℚ) : ℚ :=
  match value with
  | .finite v => if v < min then min else if v > max then max else v
  | _ => min

/-- Model of a three.js texture color space; the sanitizer only compares
against `SRGBColorSpace`. -/
inductive ColorSpace where
  | sRGB
  | linear
  | noColor
deriving DecidableEq

/-- Model of the three.js blending enum values the sanitizer writes
(`NormalBlending` / `NoBlending`); `other` stands for any further value an
imported material might carry. -/
inductive Blending where
  | NormalBlending
  | NoBlending
  | other
deriving DecidableEq

/-- The descriptive alpha-mode tag stored in `userData.alphaMode`. -/
inductive AlphaMode where
  | MASK
  | BLEND
  | OPAQUE
deriving DecidableEq

/-- Model of the base color texture slot (`material.map`): the sanitizer
reads and writes its `colorSpace` and `needsUpdate` fields. -/
structure Texture where
  colorSpace : ColorSpace
  needsUpdate : Bool
deriving DecidableEq

/-- State of a material as read and written by `#sanitizeMaterial`
(src/unnamed/part_000 lines 461-597).  The seventeen Boolean fields are
the presence flags of the texture slots listed in
UNSUPPORTED_TEXTURE_PROPS (lines 36-54).  `color` is the base color as a
24-bit hex value (the source compares and writes it through
`getHexString` / `set`), `baseColorBackup` models
`userData.__baseColorBackup`, and `alphaMode` models
`userData.alphaMode`.  Scalar fields are `JSNum` because the source
guards them with `typeof x === number`, which also accepts NaN and the
infinities. -/
structure MaterialState where
  bumpMap : Bool
  displacementMap : Bool
  emissiveMap : Bool
  lightMap : Bool
  specularMap : Bool
  envMap : Bool
  gradientMap : Bool
  clearcoatMap : Bool
  clearcoatNormalMap : Bool
  clearcoatRoughnessMap : Bool
  sheenColorMap : Bool
  sheenRoughnessMap : Bool
  transmissionMap : Bool
  thicknessMap : Bool
  iridescenceMap : Bool
  iridescenceThicknessMap : Bool
  anisotropyMap : Bool
  color : Option ℕ
  baseColorBackup : Option ℕ
  map : Option Texture
  aoMap : Bool
  alphaMap : Bool
  aoMapIntensity : JSNum
  metalness : JSNum
  roughness : JSNum
  opacity : JSNum
  alphaTest : JSNum
  transparent : Bool
  blending : Blending
  depthWrite : Bool
  alphaMode : Option AlphaMode
  needsUpdate : Bool
deriving DecidableEq

/-- The part of a BufferGeometry that `#sanitizeMaterial` touches: the
presence of the primary and secondary UV attributes. -/
structure GeometryUV where
  hasUV : Bool
  hasUV2 : Bool
deriving DecidableEq

/-- Embedding of `#sanitizeMaterial` (src/unnamed/part_000 lines
461-597) for a single material with its geometry.  Each `let` mirrors one
statement block of the source, in source order; each assignment of the
form `if (field !== desired) then field = desired, needsUpdate = true`
is modelled by storing `desired` and accumulating the change flag.  The
seventeen unsupported texture slots are nulled first, so the later
`aoMap || lightMap` test sees `lightMap` already cleared. -/
def sanitizeMaterial (m : MaterialState) (g : GeometryUV) :
    MaterialState × GeometryUV :=
  -- unsupported texture slots are nulled; any that was set flags an update
  let slotsChanged := m.bumpMap || m.displacementMap || m.emissiveMap ||
    m.lightMap || m.specularMap || m.envMap || m.gradientMap ||
    m.clearcoatMap || m.clearcoatNormalMap || m.clearcoatRoughnessMap ||
    m.sheenColorMap || m.sheenRoughnessMap || m.transmissionMap ||
    m.thicknessMap || m.iridescenceMap || m.iridescenceThicknessMap ||
    m.anisotropyMap
  let lightMap1 : Bool := false
  -- userData.__baseColorBackup is captured once, before any whitening
  let backup : Option ℕ :=
    match m.color, m.baseColorBackup with
    | some c, none => some c
    | _, b => b
  -- base color texture: force sRGB color space and a white base color
  let mapChanged :=
    match m.map with
    | some t => decide (t.colorSpace ≠ ColorSpace.sRGB)
    | none => false
  let map1 : Option Texture := m.map.map fun t =>
    if t.colorSpace ≠ ColorSpace.sRGB then ⟨ColorSpace.sRGB, true⟩ else t
  let colorChanged :=
    m.map.isSome && (match m.color with
      | some c => decide (c ≠ 0xffffff)
      | none => false)
  let color1 : Option ℕ :=
    match m.map, m.color with
    | some _, some _ => some 0xffffff
    | _, _ => m.color
  -- scalar clamps
  let aoIntensity := clamp m.aoMapIntensity 0 1
  let aoIChanged := decide (m.aoMapIntensity ≠ JSNum.finite aoIntensity)
  let metalness := clamp m.metalness 0 1
  let metChanged := decide (m.metalness ≠ JSNum.finite metalness)
  let roughness := clamp m.roughness 0 1
  let roughChanged := decide (m.roughness ≠ JSNum.finite roughness)
  let opacity := clamp m.opacity 0 1
  let opChanged := decide (m.opacity ≠ JSNum.finite opacity)
  let alphaTest := clamp m.alphaTest 0 1
  let hasAlphaMask := decide (alphaTest > 0)
  let atChanged := decide (m.alphaTest ≠ JSNum.finite alphaTest)
  -- derived blend-mode flags, in source order
  let shouldBeTransparent :=
    !hasAlphaMask && (m.transparent || decide (opacity < 1) || m.alphaMap)
  let transpChanged := decide (m.transparent ≠ shouldBeTransparent)
  let desiredBlending :=
    if shouldBeTransparent then Blending.NormalBlending else Blending.NoBlending
  let blendChanged := decide (m.blending ≠ desiredBlending)
  let desiredDepthWrite := if hasAlphaMask then true else !shouldBeTransparent
  let dwChanged := decide (m.depthWrite ≠ desiredDepthWrite)
  let desiredAlphaMode :=
    if hasAlphaMask then AlphaMode.MASK
    else if shouldBeTransparent then AlphaMode.BLEND else AlphaMode.OPAQUE
  let modeChanged := decide (m.alphaMode ≠ some desiredAlphaMode)
  -- stale alpha-test reset (reads the field just assigned, so `alphaTest`)
  let atReset := !hasAlphaMask && decide (alphaTest ≠ 0)
  let alphaTest2 := if atReset then (0 : ℚ) else alphaTest
  -- UV handling for aoMap/lightMap (lightMap was already nulled above)
  let step6 :=
    if m.aoMap || lightMap1 then
      if !g.hasUV2 && g.hasUV then
        (m.aoMap, lightMap1, false, { g with hasUV2 := true })
      else if !g.hasUV && !g.hasUV2 then
        (false, false, true, g)
      else (m.aoMap, lightMap1, false, g)
    else (m.aoMap, lightMap1, false, g)
  let changed := slotsChanged || mapChanged || colorChanged || aoIChanged ||
    metChanged || roughChanged || opChanged || atChanged || transpChanged ||
    blendChanged || dwChanged || modeChanged || atReset || step6.2.2.1
  ({ bumpMap := false, displacementMap := false, emissiveMap := false,
     lightMap := step6.2.1, specularMap := false, envMap := false,
     gradientMap := false, clearcoatMap := false,
     clearcoatNormalMap := false, clearcoatRoughnessMap := false,
     sheenColorMap := false, sheenRoughnessMap := false,
     transmissionMap := false, thicknessMap := false,
     iridescenceMap := false, iridescenceThicknessMap := false,
     anisotropyMap := false,
     color := color1, baseColorBackup := backup, map := map1,
     aoMap := step6.1, alphaMap := m.alphaMap,
     aoMapIntensity := JSNum.finite aoIntensity,
     metalness := JSNum.finite metalness,
     roughness := JSNum.finite roughness,
     opacity := JSNum.finite opacity,
     alphaTest := JSNum.finite alphaTest2,
     transparent := shouldBeTransparent,
     blending := desiredBlending,
     depthWrite := desiredDepthWrite,
     alphaMode := some desiredAlphaMode,
     needsUpdate := if changed then true else m.needsUpdate },
   step6.2.2.2)

/-- The state invariant established by one sanitization pass: every
unsupported texture slot cleared, the base color backed up and whitened
under a base color texture, the texture in sRGB space, every scalar a
finite unit-interval value, the blend-mode flags consistent with the
alpha-test priority, and the ambient-occlusion map only kept with a
secondary UV set. -/
structure Sanitized (m : MaterialState) (g : GeometryUV) : Prop where
  bump : m.bumpMap = false
  displacement : m.displacementMap = false
  emissiveM : m.emissiveMap = false
  light : m.lightMap = false
  specular : m.specularMap = false
  env : m.envMap = false
  gradient : m.gradientMap = false
  clearcoat : m.clearcoatMap = false
  clearcoatNormal : m.clearcoatNormalMap = false
  clearcoatRough : m.clearcoatRoughnessMap = false
  sheenColor : m.sheenColorMap = false
  sheenRough : m.sheenRoughnessMap = false
  transmission : m.transmissionMap = false
  thickness : m.thicknessMap = false
  iridescence : m.iridescenceMap = false
  iridescenceThick : m.iridescenceThicknessMap = false
  anisotropy : m.anisotropyMap = false
  backup : m.color.isSome = true → m.baseColorBackup.isSome = true
  mapSRGB : ∀ t, m.map = some t → t.colorSpace = ColorSpace.sRGB
  whiteColor : m.map.isSome = true → ∀ c, m.color = some c → c = 0xffffff
  aoI : ∃ q, m.aoMapIntensity = JSNum.finite q ∧ 0 ≤ q ∧ q ≤ 1
  met : ∃ q, m.metalness = JSNum.finite q ∧ 0 ≤ q ∧ q ≤ 1
  rough : ∃ q, m.roughness = JSNum.finite q ∧ 0 ≤ q ∧ q ≤ 1
  opac : ∃ q, m.opacity = JSNum.finite q ∧ 0 ≤ q ∧ q ≤ 1
  alphaT : ∃ q, m.alphaTest = JSNum.finite q ∧ 0 ≤ q ∧ q ≤ 1
  maskCase : ∀ q, m.alphaTest = JSNum.finite q → 0 < q →
    m.transparent = false ∧ m.blending = Blending.NoBlending ∧
    m.depthWrite = true ∧ m.alphaMode = some AlphaMode.MASK
  noMaskZero : ∀ q, m.alphaTest = JSNum.finite q → ¬ 0 < q → q = 0
  noMaskCase : ∀ q, m.alphaTest = JSNum.finite q → ¬ 0 < q →
    ((decide (clamp m.opacity 0 1 < 1) || m.alphaMap) = true →
      m.transparent = true) ∧
    m.blending = (if m.transparent then Blending.NormalBlending
      else Blending.NoBlending) ∧
    m.depthWrite = !m.transparent ∧
    m.alphaMode = some (if m.transparent then AlphaMode.BLEND
      else AlphaMode.OPAQUE)
  aoUV : m.aoMap = true → g.hasUV2 = true

/-- A vertex-index range, as pushed into `rangesByMaterial`
(src/unnamed/part_000 line 327). -/
structure VRange where
  start : ℕ
  count : ℕ
deriving DecidableEq

/-- Model of a three.js BufferAttribute: a flat numeric array with a fixed
item size and a `normalized` flag.  The element type is the rationals;
the source copies elements verbatim, so their exact nature is
irrelevant. -/
structure BAttr where
  itemSize : ℕ
  array : List ℚ
  normalized : Bool
deriving DecidableEq

/-- Vertex count of a BufferAttribute, `array.length / itemSize` as in
three.js. -/
def BAttr.count (a : BAttr) : ℕ := a.array.length / a.itemSize

/-- Embedding of `ranges.reduce((sum, range) => sum + range.count, 0)`
(src/unnamed/part_000 line 386). -/
def totalCount (ranges : List VRange) : ℕ :=
  ranges.foldl (fun sum range => sum + range.count) 0

/-- Embedding of `attribute.array.subarray(start, end)`: the element span
from index `s` up to but excluding `e`, clamped to the array bounds as a
JS subarray is. -/
def subarraySpan (arr : List ℚ) (s e : ℕ) : List ℚ :=
  (arr.take e).drop s

/-- Embedding of `target.set(chunk, offset)` on a typed array: overwrite
the elements of `target` starting at `offset` with `chunk`.  The source
only ever calls this with `offset + chunk.length` within the target. -/
def typedSet (target chunk : List ℚ) (offset : ℕ) : List ℚ :=
  target.take offset ++ chunk ++ target.drop (offset + chunk.length)

/-- Embedding of the per-attribute copy loop of `#buildGeometryFromRanges`
(src/unnamed/part_000 lines 390-400): a zero-filled array of
`totalCount * itemSize` elements receives, range by range, the sub-span
of the source array, at a running offset. -/
def repackArray (arr : List ℚ) (itemSize : ℕ) (ranges : List VRange) :
    List ℚ :=
  (ranges.foldl
    (fun acc range =>
      let s := range.start * itemSize
      let e := s + range.count * itemSize
      (typedSet acc.1 (subarraySpan arr s e) acc.2,
       acc.2 + range.count * itemSize))
    (List.replicate (totalCount ranges * itemSize) 0, 0)).1

/-- Repacking applied to a whole BufferAttribute: same item size and
`normalized` flag, repacked array
(src/unnamed/part_000 line 401). -/
def repackAttr (a : BAttr) (ranges : List VRange) : BAttr :=
  ⟨a.itemSize, repackArray a.array a.itemSize ranges, a.normalized⟩

/-- Model of a BufferGeometry as `#buildGeometryFromRanges` sees it:
named attributes, named lists of morph-target attributes, the
morph-relative flag, and a draw range.  Bounding volumes are recomputed
by the source after repacking and are not part of any claim. -/
structure BGeometry where
  attributes : List (String × BAttr)
  morphAttributes : List (String × List BAttr)
  morphTargetsRelative : Bool
  drawRange : ℕ × ℕ
deriving DecidableEq

/-- Embedding of `#buildGeometryFromRanges` (src/unnamed/part_000 lines
381-430): every attribute and every morph-target attribute receives the
same per-range copy treatment, and the draw range is set to the summed
count. -/
def buildGeometryFromRanges (src : BGeometry) (ranges : List VRange) :
    BGeometry where
  attributes := src.attributes.map fun p => (p.1, repackAttr p.2 ranges)
  morphAttributes := src.morphAttributes.map fun p =>
    (p.1, p.2.map fun a => repackAttr a ranges)
  morphTargetsRelative := src.morphTargetsRelative
  drawRange := (0, totalCount ranges)

/-- Vertex count read off the position attribute,
`geometry.getAttribute(position)?.count ?? 0`. -/
def positionCount (g : BGeometry) : ℕ :=
  match g.attributes.lookup "position" with
  | some a => a.count
  | none => 0

/-- A geometry group of a multi-material mesh
(`start`, `count`, `materialIndex`); the index is optional and an
arbitrary integer, as in JS (`group.materialIndex ?? 0`, then clamped). -/
structure GGroup where
  start : ℕ
  count : ℕ
  materialIndex : Option ℤ
deriving DecidableEq

/-- Embedding of
`Math.min(materials.length - 1, Math.max(0, group.materialIndex ?? 0))`
(src/unnamed/part_000 lines 316-319). -/
def clampIndex (matCount : ℕ) (mi : Option ℤ) : ℕ :=
  (min ((matCount : ℤ) - 1) (max 0 (mi.getD 0))).toNat

/-- Embedding of the group-default fallback (src/unnamed/part_000 lines
304-312): when the geometry has no groups, a single group covering the
whole position attribute with material index 0 is used. -/
def effectiveGroups (working : BGeometry) (groups : List GGroup) :
    List GGroup :=
  if groups.isEmpty then [⟨0, positionCount working, some 0⟩] else groups

/-- One step of building `rangesByMaterial`: append the range to the
bucket of `idx` (a JS `Map` holds one entry per key), creating the
bucket at the end when absent (`Map` preserves insertion order). -/
def addRange : List (ℕ × List VRange) → ℕ → VRange →
    List (ℕ × List VRange)
  | [], idx, r => [(idx, [r])]
  | b :: rest, idx, r =>
    if b.1 = idx then (b.1, b.2 ++ [r]) :: rest
    else b :: addRange rest idx r

/-- The bucketing loop of `#cloneAndSplitMesh` (src/unnamed/part_000
lines 315-328), walking the groups in order over an accumulated map.
`mats` holds the truthiness of each entry of the material array; a
group whose clamped index hits a falsy slot is skipped. -/
def bucketGroupsAux (mats : List Bool) :
    List (ℕ × List VRange) → List GGroup → List (ℕ × List VRange)
  | acc, [] => acc
  | acc, g :: gs =>
    let idx := clampIndex mats.length g.materialIndex
    if mats.getD idx false then
      bucketGroupsAux mats (addRange acc idx ⟨g.start, g.count⟩) gs
    else bucketGroupsAux mats acc gs

/-- Embedding of the bucketing of `#cloneAndSplitMesh`: the walk started
from an empty map. -/
def bucketGroups (mats : List Bool) (groups : List GGroup) :
    List (ℕ × List VRange) :=
  bucketGroupsAux mats [] groups

/-- Embedding of the multi-material branch of `#cloneAndSplitMesh`
(src/unnamed/part_000 lines 300-358) restricted to what the split-count
claim observes: the produced mesh records as (material index, geometry)
pairs.  A bucket whose repacked geometry has no position vertices is
skipped; if nothing was produced the whole node falls back to one record
with the full geometry (material index `none`, standing for the cloned
original material value). -/
def splitRecords (mats : List Bool) (working : BGeometry)
    (groups : List GGroup) : List (Option ℕ × BGeometry) :=
  let gs := effectiveGroups working groups
  let buckets := bucketGroups mats gs
  let clones := buckets.filterMap fun b =>
    let geometry := buildGeometryFromRanges working b.2
    if positionCount geometry = 0 then none else some (some b.1, geometry)
  if clones.isEmpty then [(none, working)] else clones

/-- The two unsupported-format errors `importModel` can raise
(src/unnamed/part_000 lines 86 and 231). -/
inductive ImportError where
  | unsupportedFormat
  | unsupportedExtension (ext : List Char)
deriving DecidableEq

/-- Observable events of one `importModel` run, in order: reading the
file bytes (`await file.arrayBuffer()`), handing the buffer to a
format parser, or throwing an error (which aborts the run). -/
inductive ImportEvent where
  | readBytes
  | parseAttempt (ext : List Char)
  | throwError (e : ImportError)
deriving DecidableEq

/-- Embedding of `#getExtension` (src/unnamed/part_000 lines 240-243):
the regex captures the non-empty dot-free suffix after the last dot and
lowercases it (the extensions of interest are ASCII, where the
per-character lowering agrees with toLowerCase); a name without a dot,
or ending in a dot, yields null.  The extension is kept as a character
list. -/
def getExtension (fileName : String) : Option (List Char) :=
  let chars := fileName.toList
  if chars.contains '.' then
    let sfx := (chars.reverse.takeWhile fun c => c ≠ '.').reverse
    if sfx.isEmpty then none else some (sfx.map Char.toLower)
  else none

/-- The extensions with a parser case in `#parseByExtension`
(src/unnamed/part_000 lines 220-230). -/
def supportedExtensions : List (List Char) :=
  ["gltf".toList, "glb".toList, "fbx".toList, "obj".toList]

/-- Embedding of the `#parseByExtension` dispatch
(src/unnamed/part_000 lines 219-233) as its event trace: a recognised
extension reaches its parser, anything else throws. -/
def parseByExtensionTrace (ext : List Char) : List ImportEvent :=
  if ext = "gltf".toList || ext = "glb".toList then [.parseAttempt ext]
  else if ext = "fbx".toList then [.parseAttempt ext]
  else if ext = "obj".toList then [.parseAttempt ext]
  else [.throwError (.unsupportedExtension ext)]

/-- Embedding of the `importModel` prefix (src/unnamed/part_000 lines
83-90) as its event trace: the missing-extension check throws before
the bytes are read; otherwise `file.arrayBuffer()` is awaited and the
buffer is dispatched by extension. -/
def importModelTrace (fileName : String) : List ImportEvent :=
  match getExtension fileName with
  | none => [.throwError .unsupportedFormat]
  | some ext => .readBytes :: parseByExtensionTrace ext

/-- Whether the byte list starts with the given byte sequence. -/
def startsWithSeq : List ℕ → List ℕ → Bool
  | _, [] => true
  | [], _ :: _ => false
  | a :: as, b :: bs => a = b && startsWithSeq as bs

/-- Whether the byte sequence occurs somewhere in the byte list; models
`text.includes(sig)` for the ASCII signature (an ASCII byte never occurs
inside a UTF-8 multi-byte sequence, so a byte-level search is exact). -/
def containsSeq : List ℕ → List ℕ → Bool
  | [], needle => needle.isEmpty
  | a :: rest, needle =>
    startsWithSeq (a :: rest) needle || containsSeq rest needle

/-- The Draco compression signature string scanned for by
`#bufferUsesDraco`, as its ASCII byte sequence. -/
def dracoSignature : List ℕ :=
  "KHR_draco_mesh_compression".toList.map Char.toNat

/-- Little-endian 32-bit read, `view.getUint32(off, true)`; `none` models
the RangeError a short buffer raises (caught by the source and turned
into `false`). -/
def readU32LE (bytes : List ℕ) (off : ℕ) : Option ℕ :=
  match bytes.get? off, bytes.get? (off + 1),
        bytes.get? (off + 2), bytes.get? (off + 3) with
  | some a, some b, some c, some d =>
    some (a + b * 256 + c * 65536 + d * 16777216)
  | _, _, _, _ => none

/-- Embedding of `#bufferUsesDraco` (src/unnamed/part_000 lines
166-192): a gltf buffer is scanned as text for the signature; a glb
buffer is checked for the magic word and a leading JSON chunk, which is
then scanned; every failure path yields `false`. -/
def bufferUsesDraco (ext : String) (bytes : List ℕ) : Bool :=
  if ext = "gltf" then containsSeq bytes dracoSignature
  else
    match readU32LE bytes 0 with
    | none => false
    | some magic =>
      if magic ≠ 0x46546c67 then false
      else
        match readU32LE bytes 12, readU32LE bytes 16 with
        | some jsonByteLength, some chunkType =>
          if chunkType ≠ 0x4e4f534a then false
          else if bytes.length < 20 + jsonByteLength then false
          else containsSeq ((bytes.drop 20).take jsonByteLength)
            dracoSignature
        | _, _ => false

/-- Outcome of one call of the external glTF loader. -/
inductive ParseResult where
  | success
  | failure
deriving DecidableEq

/-- The decompressor-related state of the ImportManager: whether the
DRACOLoader instance has been created (`this.dracoLoader`), and whether
it has been attached to the glTF loader (`setDRACOLoader`). -/
structure LoaderState where
  dracoCreated : Bool
  dracoAttached : Bool
deriving DecidableEq

/-- Embedding of `#getDracoLoader` (src/unnamed/part_000 lines 150-158):
creates the DRACOLoader on first use and reuses it afterwards. -/
def getDracoLoader (st : LoaderState) : LoaderState :=
  { st with dracoCreated := true }

/-- Embedding of `#parseGLTF` (src/unnamed/part_000 lines 131-144): the
decompressor is created and attached only when the signature sniff
succeeds, then the external loader parses the buffer exactly once; the
callback outcome (abstracted as a function of whether a decompressor is
attached) is returned as-is, together with the number of parse calls
made. -/
def parseGLTF (st : LoaderState) (ext : String) (bytes : List ℕ)
    (loaderParse : Bool → ParseResult) :
    LoaderState × ParseResult × ℕ :=
  let st1 :=
    if bufferUsesDraco ext bytes then
      { getDracoLoader st with dracoAttached := true }
    else st
  (st1, loaderParse st1.dracoAttached, 1)

/-- State of the SelectionManager (src/src/core/selectionManager.js,
second class, lines 263-506): the selected set (mesh identities as
numbers), the registered mesh ids in registration order (`meshMap`
keys), and `lastSelectedId`. -/
structure SelState where
  selected : Finset ℕ
  registered : List ℕ
  lastSelectedId : Option ℕ
deriving DecidableEq

/-- Embedding of `#applySelection` (src/src/core/selectionManager.js
lines 456-470): install the new set and dispatch one selectionchange
event carrying it, unconditionally. -/
def applySelection (st : SelState) (newSelection : Finset ℕ) :
    SelState × List (Finset ℕ) :=
  ({ st with selected := newSelection }, [newSelection])

/-- Embedding of `clearSelection` (src/src/core/selectionManager.js
lines 398-409): an empty selection returns early with no event;
otherwise the set is emptied, `lastSelectedId` reset, and one event
dispatched. -/
def clearSelection (st : SelState) : SelState × List (Finset ℕ) :=
  if st.selected = ∅ then (st, [])
  else ({ st with selected := ∅, lastSelectedId := none },
    [(∅ : Finset ℕ)])

/-- The candidate set built inside `selectMeshes`
(src/src/core/selectionManager.js lines 356-361): start from the
current selection when additive, else empty, and add every requested
mesh that is registered. -/
def selTarget (st : SelState) (meshes : List ℕ) (additive : Bool) :
    Finset ℕ :=
  meshes.foldl
    (fun acc id => if st.registered.contains id then insert id acc else acc)
    (if additive then st.selected else ∅)

/-- Embedding of `selectMeshes` (src/src/core/selectionManager.js lines
348-375): empty input or an empty candidate set degrades to
`clearSelection` when not additive (and to a silent no-op when
additive); otherwise `#applySelection` runs and `lastSelectedId` is
updated to the last requested registered mesh. -/
def selectMeshes (st : SelState) (meshes : List ℕ) (additive : Bool) :
    SelState × List (Finset ℕ) :=
  if meshes.isEmpty then
    if additive then (st, []) else clearSelection st
  else
    let next := selTarget st meshes additive
    if next = ∅ then
      if additive then (st, []) else clearSelection st
    else
      let applied := applySelection st next
      let st2 :=
        match meshes.getLast? with
        | some last =>
          if st.registered.contains last then
            { applied.1 with lastSelectedId := some last }
          else applied.1
        | none => applied.1
      (st2, applied.2)

/-- Embedding of `unregisterMesh` (src/src/core/selectionManager.js
lines 288-304): an unknown id returns early with no event; a known id is
removed from the registry and the selection, `lastSelectedId` is cleared
when it pointed at it, and one selectionchange event carrying the
updated set is dispatched, whether or not the mesh was selected. -/
def unregisterMesh (st : SelState) (uuid : ℕ) :
    SelState × List (Finset ℕ) :=
  if st.registered.contains uuid then
    let selected1 := st.selected.erase uuid
    ({ selected := selected1,
       registered := st.registered.erase uuid,
       lastSelectedId :=
         if st.lastSelectedId = some uuid then none
         else st.lastSelectedId },
     [selected1])
  else (st, [])

/-- A 3-vector over the rationals; `equals` is componentwise. -/
structure V3 where
  x : ℚ
  y : ℚ
  z : ℚ
deriving DecidableEq

/-- A quaternion over the rationals; `equals` is componentwise. -/
structure Quat where
  x : ℚ
  y : ℚ
  z : ℚ
  w : ℚ
deriving DecidableEq

/-- The pose triple captured by the undo log: position, quaternion and
scale. -/
structure Pose where
  position : V3
  quaternion : Quat
  scale : V3
deriving DecidableEq

/-- A mesh as the UndoManager sees it: an identity and its current
pose. -/
structure MeshObj where
  uuid : ℕ
  pose : Pose

/-- Loop of `captureSnapshot` (src/src/core/undoManager.js lines 19-35):
walk the iterable in order, skip ids already seen, and record the
current pose of the rest. -/
def captureSnapshotAux : List MeshObj → Finset ℕ → List (ℕ × Pose)
  | [], _ => []
  | m :: rest, seen =>
    if m.uuid ∈ seen then captureSnapshotAux rest seen
    else (m.uuid, m.pose) :: captureSnapshotAux rest (insert m.uuid seen)

/-- Embedding of `captureSnapshot`: the deduplicating walk starting from
an empty seen-set. -/
def captureSnapshot (meshes : List MeshObj) : List (ℕ × Pose) :=
  captureSnapshotAux meshes ∅

/-- Embedding of `commitSnapshot` (src/src/core/undoManager.js lines
41-62): an empty snapshot is dropped; a snapshot in which no mesh pose
differs from its captured pose is dropped; otherwise the oldest stack
entry is evicted when the stack is full and the snapshot is pushed.
`current` gives the pose each mesh holds at commit time. -/
def commitSnapshot (stack : List (List (ℕ × Pose))) (limit : ℕ)
    (snapshot : List (ℕ × Pose)) (current : ℕ → Pose) :
    List (List (ℕ × Pose)) :=
  if snapshot.isEmpty then stack
  else if !(snapshot.any fun e => decide (current e.1 ≠ e.2)) then stack
  else (if stack.length ≥ limit then stack.drop 1 else stack)
    ++ [snapshot]

/-- A 4x4 world matrix over the rationals. -/
abbrev Mat4 : Type := Matrix (Fin 4) (Fin 4) ℚ

/-- Embedding of `Matrix4.invert` as used on the anchor matrix
(src/src/core/transformManager.js line 193): the three.js cofactor
inverse, which yields the zero matrix when the determinant is zero and
the adjugate divided by the determinant otherwise. -/
def matInv (A : Mat4) : Mat4 :=
  if A.det = 0 then 0 else A.det⁻¹ • A.adjugate

/-- A selected mesh as the TransformManager sees it at drag start: its
identity and its world matrix. -/
structure MeshEntry where
  uuid : ℕ
  world : Mat4

/-- The drag state cached by `#cacheRelativeStates`: the anchor world
matrix at drag start and, per mesh, the relative matrix. -/
structure DragState where
  anchorMatrix : Mat4
  meshStates : List (ℕ × Mat4)

/-- Embedding of `#cacheRelativeStates`
(src/src/core/transformManager.js lines 187-201): for every selected
mesh, store `anchorInverse * mesh.matrixWorld` keyed by its id. -/
def cacheRelativeStates (anchorWorld : Mat4) (selection : List MeshEntry) :
    DragState :=
  ⟨anchorWorld,
   selection.map fun m => (m.uuid, matInv anchorWorld * m.world)⟩

/-- Embedding of `#applyAnchorTransform`
(src/src/core/transformManager.js lines 207-224): for every cached mesh,
the new world matrix `anchor.matrixWorld * relative` is decomposed into
position, quaternion and scale, which are written back to the mesh; the
subsequent `updateMatrixWorld` recomposes them into the stored world
matrix.  The decompose and compose maps of the external matrix library
are abstracted as a section pair into an arbitrary pose type `P`. -/
def applyAnchorTransform {P : Type} (decompose : Mat4 → P)
    (compose : P → Mat4) (anchorWorld : Mat4) (ds : DragState) :
    List (ℕ × Mat4) :=
  ds.meshStates.map fun p => (p.1, compose (decompose (anchorWorld * p.2)))

/-- Builds a material state with the given blend-affecting inputs and
neutral values everywhere else; used to evaluate the sanitizer at
concrete inputs. -/
def mkMaterial (opacity alphaTest : JSNum) (transparent alphaMap : Bool) :
    MaterialState where
  bumpMap := false
  displacementMap := false
  emissiveMap := false
  lightMap := false
  specularMap := false
  envMap := false
  gradientMap := false
  clearcoatMap := false
  clearcoatNormalMap := false
  clearcoatRoughnessMap := false
  sheenColorMap := false
  sheenRoughnessMap := false
  transmissionMap := false
  thicknessMap := false
  iridescenceMap := false
  iridescenceThicknessMap := false
  anisotropyMap := false
  color := none
  baseColorBackup := none
  map := none
  aoMap := false
  alphaMap := alphaMap
  aoMapIntensity := JSNum.finite 1
  metalness := JSNum.finite 0
  roughness := JSNum.finite 1
  opacity := opacity
  alphaTest := alphaTest
  transparent := transparent
  blending := Blending.NoBlending
  depthWrite := true
  alphaMode := none
  needsUpdate := false

/-- A loader behaviour that fails exactly when no decompressor is
attached: the profile of a Draco-compressed asset whose parse requires
the decompression helper. -/
def needsDracoParser : Bool → ParseResult :=
  fun attached => if attached then ParseResult.success else ParseResult.failure

/-- The elements of the i-th vertex stored in an attribute: the
`itemSize` elements starting at `i * itemSize`. -/
def vertexAt (a : BAttr) (i : ℕ) : List ℚ :=
  (a.array.drop (i * a.itemSize)).take a.itemSize

/-- A four-vertex single-attribute working geometry, used to evaluate
the splitter at concrete inputs. -/
def splitWorking : BGeometry :=
  ⟨[("position", ⟨1, [1, 2, 3, 4], false⟩)], [], false, (0, 0)⟩

/-- Two groups covering the four vertices with two material indices,
used to evaluate the splitter at concrete inputs. -/
def splitGroups : List GGroup := [⟨0, 2, some 0⟩, ⟨2, 2, some 1⟩]

/-- A neutral pose, used to evaluate the undo log at concrete inputs. -/
def poseA : Pose := ⟨⟨0, 0, 0⟩, ⟨0, 0, 0, 1⟩, ⟨1, 1, 1⟩⟩

/-- A pose translated along x, used to evaluate the undo log at concrete
inputs. -/
def poseB : Pose := ⟨⟨1, 0, 0⟩, ⟨0, 0, 0, 1⟩, ⟨1, 1, 1⟩⟩

/-- A selection with a duplicated mesh id, used to evaluate snapshot
deduplication at a concrete input. -/
def undoMeshes : List MeshObj := [⟨1, poseA⟩, ⟨1, poseA⟩, ⟨2, poseA⟩]

section Theorems

/-- The clamp of any JS number into the unit interval is nonnegative. -/
theorem clamp_nonneg (v : JSNum) : 0 ≤ clamp v 0 1 := by
  cases v <;> simp [clamp]
  split_ifs <;> linarith

/-- The clamp of any JS number into the unit interval is at most one. -/
theorem clamp_le_one (v : JSNum) : clamp v 0 1 ≤ 1 := by
  cases v <;> simp [clamp]
  split_ifs <;> linarith

/-- Clamping a finite value that already lies in the unit interval is the
identity. -/
theorem clamp_of_mem (q : ℚ) (h0 : 0 ≤ q) (h1 : q ≤ 1) :
    clamp (JSNum.finite q) 0 1 = q := by
  simp [clamp]
  split_ifs <;> linarith

/-- C2: Alpha-mode priority.  For every material and every combination of
alpha-test, opacity, transparent flag and alpha-map presence, the
sanitization pass gives: a positive clamped alpha-test yields tag MASK
with depth writing enabled regardless of the other inputs; otherwise the
material is transparent exactly when the flag was set, the clamped
opacity is below one, or an alpha map is present, blending is normal
exactly when transparent (none otherwise), depth write is the negation
of transparent, the recorded tag is BLEND when transparent and OPAQUE
otherwise, and the resulting alpha-test is exactly zero. -/
theorem alpha_mode_priority (m : MaterialState) (g : GeometryUV) :
    if clamp m.alphaTest 0 1 > 0 then
      (sanitizeMaterial m g).1.alphaMode = some AlphaMode.MASK ∧
      (sanitizeMaterial m g).1.depthWrite = true
    else
      (sanitizeMaterial m g).1.transparent
          = (m.transparent || decide (clamp m.opacity 0 1 < 1) || m.alphaMap) ∧
      (sanitizeMaterial m g).1.blending
          = (if (sanitizeMaterial m g).1.transparent then Blending.NormalBlending
             else Blending.NoBlending) ∧
      (sanitizeMaterial m g).1.depthWrite
          = !(sanitizeMaterial m g).1.transparent ∧
      (sanitizeMaterial m g).1.alphaMode
          = some (if (sanitizeMaterial m g).1.transparent then AlphaMode.BLEND
                  else AlphaMode.OPAQUE) ∧
      (sanitizeMaterial m g).1.alphaTest = JSNum.finite 0 := by
  by_cases h : clamp m.alphaTest 0 1 > 0
  · simp only [if_pos h, sanitizeMaterial]
    simp [h]
  · simp only [if_neg h, sanitizeMaterial]
    have hz : clamp m.alphaTest 0 1 = 0 :=
      le_antisymm (not_lt.mp h) (clamp_nonneg m.alphaTest)
    simp [h, hz]

/-- C10 counterexample: a material with opacity plus-infinity and a
positive finite alpha-test has its opacity collapsed to zero, yet the
sanitized material is NOT transparent (the alpha mask wins and forces
mask mode), so the claim that a plus-infinite opacity makes the material
transparent fails at this input. -/
theorem nonfinite_opacity_counterexample :
    (sanitizeMaterial
        (mkMaterial JSNum.posInf (JSNum.finite 1) false false)
        ⟨false, false⟩).1.opacity = JSNum.finite 0 ∧
    (sanitizeMaterial
        (mkMaterial JSNum.posInf (JSNum.finite 1) false false)
        ⟨false, false⟩).1.transparent = false ∧
    (sanitizeMaterial
        (mkMaterial JSNum.posInf (JSNum.finite 1) false false)
        ⟨false, false⟩).1.alphaMode = some AlphaMode.MASK := by
  refine ⟨?_, ?_, ?_⟩ <;> decide

/-- C10 amended: every non-finite blend-affecting scalar (opacity,
alpha-test, metalness, roughness, ambient-occlusion intensity) is
replaced by the lower clamp bound zero, never the upper bound or the
original value; no non-finite value survives sanitization; and a
non-finite opacity makes the material transparent whenever the clamped
alpha-test does not force mask mode. -/
theorem nonfinite_scalars_collapse (m : MaterialState) (g : GeometryUV) :
    (m.opacity.isFinite = false →
      (sanitizeMaterial m g).1.opacity = JSNum.finite 0) ∧
    (m.alphaTest.isFinite = false →
      (sanitizeMaterial m g).1.alphaTest = JSNum.finite 0) ∧
    (m.metalness.isFinite = false →
      (sanitizeMaterial m g).1.metalness = JSNum.finite 0) ∧
    (m.roughness.isFinite = false →
      (sanitizeMaterial m g).1.roughness = JSNum.finite 0) ∧
    (m.aoMapIntensity.isFinite = false →
      (sanitizeMaterial m g).1.aoMapIntensity = JSNum.finite 0) ∧
    ((sanitizeMaterial m g).1.opacity.isFinite = true ∧
     (sanitizeMaterial m g).1.alphaTest.isFinite = true ∧
     (sanitizeMaterial m g).1.metalness.isFinite = true ∧
     (sanitizeMaterial m g).1.roughness.isFinite = true ∧
     (sanitizeMaterial m g).1.aoMapIntensity.isFinite = true) ∧
    (m.opacity.isFinite = false → ¬ clamp m.alphaTest 0 1 > 0 →
      (sanitizeMaterial m g).1.transparent = true) := by
  have hcl : ∀ v : JSNum, v.isFinite = false → clamp v 0 1 = 0 := by
    intro v hv
    cases v <;> simp_all [JSNum.isFinite, clamp]
  refine ⟨?_, ?_, ?_, ?_, ?_, ⟨?_, ?_, ?_, ?_, ?_⟩, ?_⟩
  · intro h; simp [sanitizeMaterial, hcl _ h]
  · intro h
    simp [sanitizeMaterial, hcl _ h]
  · intro h; simp [sanitizeMaterial, hcl _ h]
  · intro h; simp [sanitizeMaterial, hcl _ h]
  · intro h; simp [sanitizeMaterial, hcl _ h]
  · simp [sanitizeMaterial, JSNum.isFinite]
  · simp [sanitizeMaterial, JSNum.isFinite]
  · simp [sanitizeMaterial, JSNum.isFinite]
  · simp [sanitizeMaterial, JSNum.isFinite]
  · simp [sanitizeMaterial, JSNum.isFinite]
  · intro h hmask
    simp [sanitizeMaterial, hcl _ h, hmask]

/-- C10 witness: the amended statement evaluated at a material whose five
blend-affecting scalars are NaN or infinite. -/
theorem nonfinite_scalars_collapse_witness :
    ((mkMaterial JSNum.posInf JSNum.nan false false).opacity.isFinite
        = false) ∧
    (sanitizeMaterial (mkMaterial JSNum.posInf JSNum.nan false false)
        ⟨false, false⟩).1.opacity = JSNum.finite 0 ∧
    (sanitizeMaterial (mkMaterial JSNum.posInf JSNum.nan false false)
        ⟨false, false⟩).1.transparent = true := by
  have h := nonfinite_scalars_collapse
    (mkMaterial JSNum.posInf JSNum.nan false false) ⟨false, false⟩
  exact ⟨by decide, h.1 (by decide), h.2.2.2.2.2.2 (by decide) (by decide)⟩

/-- C8 counterexample: for the file name model.png the extension is
present but unsupported, and the import run both reads the file bytes
and raises the unsupported-extension error — with the read strictly
before the error — so the claim that the failure happens before any
bytes are read is false at this input. -/
theorem unsupported_format_counterexample :
    importModelTrace "model.png"
      = [ImportEvent.readBytes,
         ImportEvent.throwError
           (ImportError.unsupportedExtension "png".toList)] ∧
    ImportEvent.readBytes ∈ importModelTrace "model.png" := by
  constructor
  · decide
  · decide

/-- C8 amended: a file with no recognised extension always fails with an
unsupported-format error, and such an error is raised only for those
files; however the failure precedes the byte read only when the file
name carries no extension at all — when an extension is present but
unsupported, the bytes are read first and the error is raised by the
extension dispatch afterwards. -/
theorem unsupported_format_failure (name : String) :
    ((importModelTrace name).contains ImportEvent.readBytes
        = (getExtension name).isSome) ∧
    ((∃ e, ImportEvent.throwError e ∈ importModelTrace name) ↔
      (match getExtension name with
       | none => True
       | some ext => ext ∉ supportedExtensions)) ∧
    (∀ ext, getExtension name = some ext → ext ∉ supportedExtensions →
      importModelTrace name
        = [ImportEvent.readBytes,
           ImportEvent.throwError (ImportError.unsupportedExtension ext)]) := by
  refine ⟨?_, ?_, ?_⟩
  · cases h : getExtension name with
    | none => simp [importModelTrace, h]
    | some ext =>
      simp only [importModelTrace, h, parseByExtensionTrace, Option.isSome]
      split_ifs <;> simp
  · cases h : getExtension name with
    | none =>
      simp only [importModelTrace, h]
      constructor
      · intro _; trivial
      · intro _
        exact ⟨ImportError.unsupportedFormat, by simp⟩
    | some ext =>
      simp only [importModelTrace, h, parseByExtensionTrace,
        supportedExtensions]
      constructor
      · rintro ⟨e, he⟩
        simp only [List.mem_cons] at he
        split_ifs at he <;> simp_all
      · intro hx
        refine ⟨ImportError.unsupportedExtension ext, ?_⟩
        simp only [List.mem_cons]
        split_ifs <;> simp_all
  · intro ext hext hunsup
    simp only [importModelTrace, hext, parseByExtensionTrace]
    simp only [supportedExtensions] at hunsup
    split_ifs <;> simp_all

/-- C8 witness: the amended statement evaluated at the names
scene.GLB (supported, case-insensitive, bytes read, no error) and
model.png (unsupported, bytes read, then the error). -/
theorem unsupported_format_failure_witness :
    ((importModelTrace "scene.GLB").contains ImportEvent.readBytes = true ∧
      ¬ ∃ e, ImportEvent.throwError e ∈ importModelTrace "scene.GLB") ∧
    importModelTrace "model.png"
      = [ImportEvent.readBytes,
         ImportEvent.throwError
           (ImportError.unsupportedExtension "png".toList)] := by
  constructor
  · constructor
    · have h := (unsupported_format_failure "scene.GLB").1
      rw [h]; decide
    · intro hx
      have h := ((unsupported_format_failure "scene.GLB").2.1).mp hx
      have he : getExtension "scene.GLB" = some "glb".toList := by decide
      rw [he] at h
      exact h (by decide)
  · exact (unsupported_format_failure "model.png").2.2 "png".toList
      (by decide) (by decide)

/-- C9 counterexample: a glb buffer in which the signature sniff finds
no Draco marker, parsed by a loader that fails exactly because the
decompressor is missing (it succeeds whenever one is attached): the
pipeline makes exactly one parse call, attaches and creates nothing, and
returns the failure — there is no retry with a decompressor, so the
claimed retry-once-after-attaching behaviour is false at this input. -/
theorem lazy_decompressor_counterexample :
    parseGLTF ⟨false, false⟩ "glb" [] needsDracoParser
      = (⟨false, false⟩, ParseResult.failure, 1) := by
  decide

/-- C9 amended: the decompression helper is created and attached only
when the compression signature is detected in the raw bytes (text scan
for gltf, binary JSON-chunk scan for glb); buffers without the signature
leave the loader state untouched; and the parse is attempted exactly
once — a failure propagates without any retry. -/
theorem lazy_decompressor_no_retry (st : LoaderState) (ext : String)
    (bytes : List ℕ) (loaderParse : Bool → ParseResult) :
    ((parseGLTF st ext bytes loaderParse).2.2 = 1) ∧
    (bufferUsesDraco ext bytes = false →
      parseGLTF st ext bytes loaderParse
        = (st, loaderParse st.dracoAttached, 1)) ∧
    (bufferUsesDraco ext bytes = true →
      (parseGLTF st ext bytes loaderParse).1.dracoCreated = true ∧
      (parseGLTF st ext bytes loaderParse).1.dracoAttached = true ∧
      (parseGLTF st ext bytes loaderParse).2.1 = loaderParse true) := by
  refine ⟨rfl, ?_, ?_⟩
  · intro h
    simp [parseGLTF, h]
  · intro h
    simp [parseGLTF, h, getDracoLoader]

/-- C9 witness: the amended statement evaluated on a gltf buffer
consisting of the signature bytes themselves (signature detected, helper
created and attached, one attempt) and on an empty glb buffer (no
signature, loader state untouched, the missing-decompressor failure
comes back after the single attempt). -/
theorem lazy_decompressor_no_retry_witness :
    (bufferUsesDraco "gltf" dracoSignature = true ∧
      (parseGLTF ⟨false, false⟩ "gltf" dracoSignature
          needsDracoParser).1.dracoCreated = true) ∧
    (bufferUsesDraco "glb" [] = false ∧
      parseGLTF ⟨false, false⟩ "glb" [] needsDracoParser
        = (⟨false, false⟩, ParseResult.failure, 1)) := by
  constructor
  · exact ⟨by decide,
      ((lazy_decompressor_no_retry ⟨false, false⟩ "gltf" dracoSignature
        needsDracoParser).2.2 (by decide)).1⟩
  · refine ⟨by decide, ?_⟩
    rw [(lazy_decompressor_no_retry ⟨false, false⟩ "glb" []
      needsDracoParser).2.1 (by decide)]
    rfl

/-- A non-empty clear empties the selection and fires exactly one event
carrying the new (empty) set. -/
theorem clearSelection_fires (st : SelState)
    (h : (clearSelection st).1.selected ≠ st.selected) :
    (clearSelection st).2 = [(clearSelection st).1.selected] := by
  by_cases he : st.selected = ∅
  · simp [clearSelection, he] at h
  · simp [clearSelection, he]

/-- When the requested list is non-empty and the candidate set is
non-empty, `selectMeshes` installs the candidate set and fires exactly
one event carrying it. -/
theorem selectMeshes_apply (st : SelState) (meshes : List ℕ)
    (additive : Bool) (hm : meshes.isEmpty = false)
    (ht : selTarget st meshes additive ≠ ∅) :
    (selectMeshes st meshes additive).1.selected
        = selTarget st meshes additive ∧
    (selectMeshes st meshes additive).2
        = [selTarget st meshes additive] := by
  simp only [selectMeshes, hm, applySelection, Bool.false_eq_true,
    ite_false, if_neg ht]
  rcases meshes.getLast? with _ | last
  · simp
  · dsimp only
    split_ifs <;> simp

/-- When the requested list or the candidate set is empty,
`selectMeshes` degrades to a silent no-op (additive) or to
`clearSelection` (non-additive). -/
theorem selectMeshes_degenerate (st : SelState) (meshes : List ℕ)
    (additive : Bool)
    (h : meshes.isEmpty = true ∨ selTarget st meshes additive = ∅) :
    selectMeshes st meshes additive
      = if additive then (st, []) else clearSelection st := by
  rcases h with h | h
  · simp [selectMeshes, h]
  · by_cases hm : meshes.isEmpty
    · simp [selectMeshes, hm]
    · simp [selectMeshes, hm, h]

/-- C6 counterexample: re-selecting the already-current selection (mesh
5 is registered and already the only selected mesh, selected again
non-additively) leaves the membership unchanged yet fires one
selectionchange notification, so the claim that membership-preserving
operations fire nothing is false at this input. -/
theorem selection_notification_counterexample :
    (selectMeshes ⟨{5}, [5], some 5⟩ [5] false).1.selected
        = ({5} : Finset ℕ) ∧
    (selectMeshes ⟨{5}, [5], some 5⟩ [5] false).2
        = [({5} : Finset ℕ)] := by
  constructor <;> decide

/-- C6 amended: clearing an empty selection is a no-op that fires
nothing, and every operation that changes the resulting membership
(clear, select, unregister) fires exactly one notification carrying the
new set; however a select whose effective target set is non-empty fires
exactly one notification even when the membership is unchanged, and
unregistering any registered mesh fires exactly one notification even
when the mesh was not selected. -/
theorem selection_changed_notification (st : SelState) (meshes : List ℕ)
    (additive : Bool) (uuid : ℕ) :
    (st.selected = ∅ → clearSelection st = (st, [])) ∧
    ((clearSelection st).1.selected ≠ st.selected →
      (clearSelection st).2 = [(clearSelection st).1.selected]) ∧
    ((selectMeshes st meshes additive).1.selected ≠ st.selected →
      (selectMeshes st meshes additive).2
        = [(selectMeshes st meshes additive).1.selected]) ∧
    ((unregisterMesh st uuid).1.selected ≠ st.selected →
      (unregisterMesh st uuid).2 = [(unregisterMesh st uuid).1.selected]) ∧
    (meshes ≠ [] → selTarget st meshes additive ≠ ∅ →
      (selectMeshes st meshes additive).2
        = [selTarget st meshes additive]) ∧
    (st.registered.contains uuid = true →
      (unregisterMesh st uuid).2 = [st.selected.erase uuid]) := by
  refine ⟨?_, ?_, ?_, ?_, ?_, ?_⟩
  · intro h
    simp [clearSelection, h]
  · exact clearSelection_fires st
  · intro h
    by_cases hm : meshes.isEmpty
    · rw [selectMeshes_degenerate st meshes additive (Or.inl hm)] at h ⊢
      cases additive
      · simp only [Bool.false_eq_true, if_false] at h ⊢
        exact clearSelection_fires st h
      · simp at h
    · by_cases ht : selTarget st meshes additive = ∅
      · rw [selectMeshes_degenerate st meshes additive (Or.inr ht)] at h ⊢
        cases additive
        · simp only [Bool.false_eq_true, if_false] at h ⊢
          exact clearSelection_fires st h
        · simp at h
      · have hm2 : meshes.isEmpty = false := by simpa using hm
        rw [(selectMeshes_apply st meshes additive hm2 ht).2,
          (selectMeshes_apply st meshes additive hm2 ht).1]
  · intro h
    by_cases hr : uuid ∈ st.registered
    · simp [unregisterMesh, hr]
    · simp [unregisterMesh, hr] at h
  · intro hm ht
    have hm2 : meshes.isEmpty = false := by
      cases meshes <;> simp_all
    exact (selectMeshes_apply st meshes additive hm2 ht).2
  · intro hr
    have hr2 : uuid ∈ st.registered := by simpa using hr
    simp [unregisterMesh, hr2]

/-- C6 witness: the amended statement evaluated on a concrete state with
meshes 5 and 7 registered and mesh 5 selected: selecting mesh 7 fires
one notification with the new set, and unregistering the unselected mesh
7 fires one notification with the unchanged set. -/
theorem selection_changed_notification_witness :
    (selectMeshes ⟨{5}, [5, 7], some 5⟩ [7] false).2
        = [selTarget ⟨{5}, [5, 7], some 5⟩ [7] false] ∧
    (unregisterMesh ⟨{5}, [5, 7], some 5⟩ 7).2
        = [({5} : Finset ℕ).erase 7] := by
  constructor
  · exact (selection_changed_notification ⟨{5}, [5, 7], some 5⟩ [7]
      false 7).2.2.2.2.1 (by decide) (by decide)
  · exact (selection_changed_notification ⟨{5}, [5, 7], some 5⟩ [7]
      false 7).2.2.2.2.2 (by decide)

/-- The ids captured by the snapshot walk are exactly the requested ids
not yet seen. -/
theorem captureSnapshotAux_keys_mem (l : List MeshObj) (seen : Finset ℕ)
    (id : ℕ) :
    id ∈ (captureSnapshotAux l seen).map Prod.fst ↔
      (id ∈ l.map MeshObj.uuid ∧ id ∉ seen) := by
  induction l generalizing seen with
  | nil => simp [captureSnapshotAux]
  | cons m rest ih =>
    by_cases h : m.uuid ∈ seen
    · simp only [captureSnapshotAux, if_pos h, ih, List.map_cons,
        List.mem_cons]
      constructor
      · rintro ⟨h1, h2⟩
        exact ⟨Or.inr h1, h2⟩
      · rintro ⟨h1 | h1, h2⟩
        · exact absurd (h1 ▸ h) h2
        · exact ⟨h1, h2⟩
    · simp only [captureSnapshotAux, if_neg h, List.map_cons,
        List.mem_cons, ih, Finset.mem_insert]
      by_cases hid : id = m.uuid
      · subst hid
        simp [h]
      · simp [hid]

/-- The ids captured by the snapshot walk carry no duplicates. -/
theorem captureSnapshotAux_nodup (l : List MeshObj) (seen : Finset ℕ) :
    ((captureSnapshotAux l seen).map Prod.fst).Nodup := by
  induction l generalizing seen with
  | nil => simp [captureSnapshotAux]
  | cons m rest ih =>
    by_cases h : m.uuid ∈ seen
    · simpa [captureSnapshotAux, h] using ih seen
    · simp only [captureSnapshotAux, if_neg h, List.map_cons,
        List.nodup_cons]
      refine ⟨?_, ih _⟩
      rw [captureSnapshotAux_keys_mem]
      simp

/-- Every snapshot entry carries the pose of one of the requested
meshes. -/
theorem captureSnapshotAux_entries (l : List MeshObj) (seen : Finset ℕ) :
    ∀ e ∈ captureSnapshotAux l seen,
      ∃ m ∈ l, m.uuid = e.1 ∧ m.pose = e.2 := by
  induction l generalizing seen with
  | nil => simp [captureSnapshotAux]
  | cons m rest ih =>
    intro e he
    by_cases h : m.uuid ∈ seen
    · rw [captureSnapshotAux, if_pos h] at he
      obtain ⟨m2, hm2, he2⟩ := ih seen e he
      exact ⟨m2, List.mem_cons_of_mem m hm2, he2⟩
    · rw [captureSnapshotAux, if_neg h] at he
      rcases List.mem_cons.mp he with he1 | he1
      · exact ⟨m, List.mem_cons_self m rest, by rw [he1], by rw [he1]⟩
      · obtain ⟨m2, hm2, he2⟩ := ih _ e he1
        exact ⟨m2, List.mem_cons_of_mem m hm2, he2⟩

/-- C7: Undo no-op suppression.  Committing a captured snapshot in which
no member pose differs from its captured value pushes nothing onto the
undo stack; committing one in which at least one member pose differs
pushes exactly one entry (after evicting the oldest entry when full),
and that entry holds the pre-change poses of exactly the requested
members: its ids are the requested ids, deduplicated, and every stored
pose is the pose of one of the requested meshes. -/
theorem undo_noop_suppression (stack : List (List (ℕ × Pose)))
    (limit : ℕ) (meshes : List MeshObj) (current : ℕ → Pose) :
    ((∀ e ∈ captureSnapshot meshes, current e.1 = e.2) →
      commitSnapshot stack limit (captureSnapshot meshes) current
        = stack) ∧
    ((∃ e ∈ captureSnapshot meshes, current e.1 ≠ e.2) →
      commitSnapshot stack limit (captureSnapshot meshes) current
        = (if stack.length ≥ limit then stack.drop 1 else stack)
          ++ [captureSnapshot meshes]) ∧
    ((captureSnapshot meshes).map Prod.fst).Nodup ∧
    (∀ id, id ∈ (captureSnapshot meshes).map Prod.fst ↔
      id ∈ meshes.map MeshObj.uuid) ∧
    (∀ e ∈ captureSnapshot meshes,
      ∃ m ∈ meshes, m.uuid = e.1 ∧ m.pose = e.2) := by
  refine ⟨?_, ?_, captureSnapshotAux_nodup meshes ∅, ?_,
    captureSnapshotAux_entries meshes ∅⟩
  · intro hall
    have hch : ((captureSnapshot meshes).any
        fun e => decide (current e.1 ≠ e.2)) = false := by
      rw [List.any_eq_false]
      intro e he
      simp [hall e he]
    unfold commitSnapshot
    by_cases h1 : (captureSnapshot meshes).isEmpty
    · rw [if_pos h1]
    · rw [if_neg h1, if_pos (by rw [hch]; rfl)]
  · rintro ⟨e, he, hne⟩
    have hch : ((captureSnapshot meshes).any
        fun e => decide (current e.1 ≠ e.2)) = true := by
      rw [List.any_eq_true]
      exact ⟨e, he, decide_eq_true hne⟩
    have h1 : (captureSnapshot meshes).isEmpty = false := by
      cases hcap : captureSnapshot meshes
      · rw [hcap] at he
        simp at he
      · simp [hcap]
    unfold commitSnapshot
    rw [if_neg (by simp [h1]), if_neg (by rw [hch]; decide)]
  · intro id
    unfold captureSnapshot
    rw [captureSnapshotAux_keys_mem]
    simp

/-- C7 witness: committing a snapshot of a duplicated selection (ids 1,
1, 2) against unchanged poses pushes nothing; committing it after mesh 2
moved pushes exactly the snapshot, whose id list is the deduplicated
[1, 2]. -/
theorem undo_noop_suppression_witness :
    commitSnapshot [] 100 (captureSnapshot undoMeshes)
        (fun _ => poseA) = [] ∧
    commitSnapshot [] 100 (captureSnapshot undoMeshes)
        (fun i => if i = 2 then poseB else poseA)
      = [captureSnapshot undoMeshes] ∧
    (captureSnapshot undoMeshes).map Prod.fst = [1, 2] := by
  refine ⟨(undo_noop_suppression [] 100 undoMeshes _).1 (by decide),
    ?_, by decide⟩
  have h := (undo_noop_suppression [] 100 undoMeshes
    (fun i => if i = 2 then poseB else poseA)).2.1 (by decide)
  simpa using h

/-- C1: Anchor relative-pose round trip.  If a drag starts with the
anchor at world matrix P0 and, for every selected mesh, the relative
matrix inverse(P0) * meshWorld is cached, then a manipulation update
that moves the anchor to world matrix P1 gives every mesh the new world
matrix P1 * inverse(P0) * meshOriginalWorld — for any delta (translate,
rotate, scale or combined), whenever the decompose-recompose pair of the
matrix library reproduces that product exactly (the no-loss condition of
the claim). -/
theorem anchor_relative_pose_round_trip {P : Type}
    (decompose : Mat4 → P) (compose : P → Mat4)
    (P0 P1 : Mat4) (selection : List MeshEntry)
    (hsection : ∀ m ∈ selection,
      compose (decompose (P1 * (matInv P0 * m.world)))
        = P1 * (matInv P0 * m.world)) :
    applyAnchorTransform decompose compose P1
        (cacheRelativeStates P0 selection)
      = selection.map fun m => (m.uuid, P1 * matInv P0 * m.world) := by
  unfold applyAnchorTransform cacheRelativeStates
  simp only [List.map_map]
  refine List.map_congr_left ?_
  intro m hm
  simp only [Function.comp_apply, hsection m hm, mul_assoc]

/-- C1 witness: the round trip evaluated with the identity
decompose-recompose pair at the identity anchor poses and a single mesh
at the identity world matrix. -/
theorem anchor_relative_pose_round_trip_witness :
    applyAnchorTransform (id : Mat4 → Mat4) id 1
        (cacheRelativeStates 1 [⟨0, 1⟩])
      = [(0, (1 : Mat4))] := by
  have h := anchor_relative_pose_round_trip (id : Mat4 → Mat4) id 1 1
    [⟨0, 1⟩] (fun m _ => rfl)
  rw [h]
  simp [matInv, Matrix.det_one, Matrix.adjugate_one]

/-- Folding the range counts from any seed adds the total count. -/
theorem totalCount_go (rs : List VRange) (n : ℕ) :
    rs.foldl (fun sum range => sum + range.count) n = n + totalCount rs := by
  induction rs generalizing n with
  | nil => simp [totalCount]
  | cons r rs ih =>
    simp only [List.foldl_cons, totalCount]
    rw [ih, ih]
    omega

/-- The total count of a cons of ranges. -/
theorem totalCount_cons (r : VRange) (rs : List VRange) :
    totalCount (r :: rs) = r.count + totalCount rs := by
  calc totalCount (r :: rs)
      = rs.foldl (fun sum range => sum + range.count) (0 + r.count) := rfl
    _ = (0 + r.count) + totalCount rs := totalCount_go rs _
    _ = r.count + totalCount rs := by omega

/-- An in-bounds subarray span has exactly the requested length. -/
theorem subarraySpan_length (arr : List ℚ) (s len : ℕ)
    (h : s + len ≤ arr.length) :
    (subarraySpan arr s (s + len)).length = len := by
  simp only [subarraySpan, List.length_drop, List.length_take]
  omega

/-- A subarray span never exceeds the requested length (a JS subarray
clamps to the buffer bounds). -/
theorem subarraySpan_le (arr : List ℚ) (s len : ℕ) :
    (subarraySpan arr s (s + len)).length ≤ len := by
  simp only [subarraySpan, List.length_drop, List.length_take]
  omega

/-- Writing a chunk that fits inside the target leaves the length
unchanged. -/
theorem typedSet_length (target chunk : List ℚ) (off : ℕ)
    (h : off + chunk.length ≤ target.length) :
    (typedSet target chunk off).length = target.length := by
  simp only [typedSet, List.length_append, List.length_take,
    List.length_drop]
  omega

/-- Writing a chunk exactly at the boundary between a prefix and a
suffix overwrites the start of the suffix. -/
theorem typedSet_fit (pre rest chunk : List ℚ) :
    typedSet (pre ++ rest) chunk pre.length
      = pre ++ (chunk ++ rest.drop chunk.length) := by
  unfold typedSet
  rw [List.take_left, List.drop_append, List.append_assoc]

/-- The copy loop of the repacker, started after an already-written
prefix, appends the concatenation of the per-range spans. -/
theorem repack_go (arr : List ℚ) (itemSize : ℕ) (ranges : List VRange)
    (hb : ∀ r ∈ ranges, (r.start + r.count) * itemSize ≤ arr.length)
    (pre : List ℚ) :
    (ranges.foldl
      (fun acc range =>
        let s := range.start * itemSize
        let e := s + range.count * itemSize
        (typedSet acc.1 (subarraySpan arr s e) acc.2,
         acc.2 + range.count * itemSize))
      (pre ++ List.replicate (totalCount ranges * itemSize) 0,
       pre.length)).1
    = pre ++ (ranges.map fun r =>
        subarraySpan arr (r.start * itemSize)
          (r.start * itemSize + r.count * itemSize)).flatten := by
  induction ranges generalizing pre with
  | nil => simp [totalCount]
  | cons r rs ih =>
    have hr := hb r (List.mem_cons_self r rs)
    have hlen : (subarraySpan arr (r.start * itemSize)
        (r.start * itemSize + r.count * itemSize)).length
        = r.count * itemSize := by
      apply subarraySpan_length
      calc r.start * itemSize + r.count * itemSize
          = (r.start + r.count) * itemSize := by ring
        _ ≤ arr.length := hr
    simp only [List.foldl_cons, totalCount_cons, Nat.add_mul,
      List.replicate_add, ← List.append_assoc]
    rw [List.append_assoc pre, typedSet_fit, hlen,
      List.drop_left' (List.length_replicate _ _), ← List.append_assoc]
    have hoff : pre.length + r.count * itemSize
        = (pre ++ subarraySpan arr (r.start * itemSize)
            (r.start * itemSize + r.count * itemSize)).length := by
      simp [hlen]
    rw [hoff, ih (fun q hq => hb q (List.mem_cons_of_mem r hq))]
    simp [List.append_assoc]

/-- The concatenation form of the repacked array, for in-bounds
ranges. -/
theorem repackArray_eq_flatten (arr : List ℚ) (itemSize : ℕ)
    (ranges : List VRange)
    (hb : ∀ r ∈ ranges, (r.start + r.count) * itemSize ≤ arr.length) :
    repackArray arr itemSize ranges
      = (ranges.map fun r =>
          subarraySpan arr (r.start * itemSize)
            (r.start * itemSize + r.count * itemSize)).flatten := by
  have h := repack_go arr itemSize ranges hb []
  simpa [repackArray] using h

/-- The repacked array always has exactly the summed length, whatever
the ranges, because each write fits inside the preallocated zero
buffer. -/
theorem repackArray_length (arr : List ℚ) (itemSize : ℕ)
    (ranges : List VRange) :
    (repackArray arr itemSize ranges).length
      = totalCount ranges * itemSize := by
  suffices h : ∀ (rs : List VRange) (acc : List ℚ) (off : ℕ),
      off + totalCount rs * itemSize ≤ acc.length →
      ((rs.foldl
        (fun acc range =>
          let s := range.start * itemSize
          let e := s + range.count * itemSize
          (typedSet acc.1 (subarraySpan arr s e) acc.2,
           acc.2 + range.count * itemSize))
        (acc, off)).1).length = acc.length by
    have := h ranges (List.replicate (totalCount ranges * itemSize) 0) 0
      (by simp)
    simpa [repackArray] using this
  intro rs
  induction rs with
  | nil => intro acc off _; rfl
  | cons r rs ih =>
    intro acc off hoff
    rw [totalCount_cons, Nat.add_mul] at hoff
    have hch := subarraySpan_le arr (r.start * itemSize)
      (r.count * itemSize)
    have hfit : off + (subarraySpan arr (r.start * itemSize)
        (r.start * itemSize + r.count * itemSize)).length
        ≤ acc.length := by omega
    simp only [List.foldl_cons]
    rw [ih _ _ (by rw [typedSet_length _ _ _ hfit]; omega)]
    exact typedSet_length _ _ _ hfit

/-- Inside the concatenation of the per-range spans, the i-th vertex of
the j-th range is the corresponding source vertex. -/
theorem flatten_extract_vertex (arr : List ℚ) (itemSize : ℕ)
    (ranges : List VRange)
    (hb : ∀ r ∈ ranges, (r.start + r.count) * itemSize ≤ arr.length)
    (j : ℕ) (hj : j < ranges.length) (i : ℕ)
    (hi : i < (ranges.get ⟨j, hj⟩).count) :
    (((ranges.map fun r =>
        subarraySpan arr (r.start * itemSize)
          (r.start * itemSize + r.count * itemSize)).flatten).drop
      ((totalCount (ranges.take j) + i) * itemSize)).take itemSize
    = (arr.drop (((ranges.get ⟨j, hj⟩).start + i) * itemSize)).take
        itemSize := by
  induction ranges generalizing j with
  | nil => exact absurd hj (Nat.not_lt_zero j)
  | cons r rs ih =>
    have hr := hb r (List.mem_cons_self r rs)
    have hlen : (subarraySpan arr (r.start * itemSize)
        (r.start * itemSize + r.count * itemSize)).length
        = r.count * itemSize := by
      apply subarraySpan_length
      calc r.start * itemSize + r.count * itemSize
          = (r.start + r.count) * itemSize := by ring
        _ ≤ arr.length := hr
    cases j with
    | zero =>
      have hi0 : i < r.count := hi
      simp only [List.take_zero, List.map_cons, List.flatten_cons,
        List.get]
      have h0 : totalCount ([] : List VRange) = 0 := rfl
      rw [h0, Nat.zero_add]
      have h2 : i * itemSize + itemSize ≤ r.count * itemSize := by
        have h3 := Nat.mul_le_mul_right itemSize hi0
        rw [Nat.succ_mul] at h3
        exact h3
      have hd : i * itemSize ≤ (subarraySpan arr (r.start * itemSize)
          (r.start * itemSize + r.count * itemSize)).length := by
        rw [hlen]
        omega
      rw [List.drop_append_of_le_length hd]
      have ht : itemSize ≤ ((subarraySpan arr (r.start * itemSize)
          (r.start * itemSize + r.count * itemSize)).drop
            (i * itemSize)).length := by
        rw [List.length_drop, hlen]
        omega
      rw [List.take_append_of_le_length ht]
      simp only [subarraySpan]
      rw [List.drop_drop, List.drop_take,
        show (r.start + i) * itemSize
            = r.start * itemSize + i * itemSize from by ring,
        List.take_take]
      congr 1
      omega
    | succ j =>
      have hj2 : j < rs.length := Nat.lt_of_succ_lt_succ hj
      simp only [List.take_succ_cons, totalCount_cons, List.map_cons,
        List.flatten_cons, List.get]
      have harith : (r.count + (totalCount (rs.take j) + i)) * itemSize
          = r.count * itemSize
            + (totalCount (rs.take j) + i) * itemSize := by ring
      have hdrop : ∀ (A B : List ℚ) (n m : ℕ), A.length = n →
          (A ++ B).drop (n + m) = B.drop m := by
        intro A B n m h
        rw [← h, List.drop_append]
      rw [Nat.add_assoc, harith, hdrop _ _ _ _ hlen]
      exact ih (fun q hq => hb q (List.mem_cons_of_mem r hq)) j hj2 hi

/-- Repacking the single full range reproduces the source array
exactly. -/
theorem repackArray_full (arr : List ℚ) (itemSize n : ℕ)
    (h : arr.length = n * itemSize) :
    repackArray arr itemSize [⟨0, n⟩] = arr := by
  rw [repackArray_eq_flatten arr itemSize [⟨0, n⟩]
    (by intro r hr; simp at hr; subst hr; simp [h])]
  simp [subarraySpan, ← h]

/-- C3: Repack completeness and full-range identity.  Rebuilding a
geometry from ranges applies the same per-range copy to every attribute
and every morph-target attribute; for any attribute and any list of
in-bounds ranges, the repacked array is the concatenation, in range
order, of the per-range sub-spans of the source array, its length is
the summed count times the item size (so the vertex count is the summed
count), the i-th vertex within the j-th range equals the source vertex
at start plus i; and repacking the single full range reproduces the
source array element for element. -/
theorem repack_completeness (src : BGeometry) (ranges : List VRange) :
    ((buildGeometryFromRanges src ranges).attributes
        = src.attributes.map fun p => (p.1, repackAttr p.2 ranges)) ∧
    ((buildGeometryFromRanges src ranges).morphAttributes
        = src.morphAttributes.map fun p =>
            (p.1, p.2.map fun a => repackAttr a ranges)) ∧
    (∀ a : BAttr,
      (∀ r ∈ ranges, (r.start + r.count) * a.itemSize ≤ a.array.length) →
      ((repackAttr a ranges).array
          = (ranges.map fun r =>
              subarraySpan a.array (r.start * a.itemSize)
                (r.start * a.itemSize + r.count * a.itemSize)).flatten ∧
       (repackAttr a ranges).array.length
          = totalCount ranges * a.itemSize ∧
       (0 < a.itemSize → (repackAttr a ranges).count = totalCount ranges) ∧
       (∀ (j : ℕ) (hj : j < ranges.length) (i : ℕ),
          i < (ranges.get ⟨j, hj⟩).count →
          vertexAt (repackAttr a ranges) (totalCount (ranges.take j) + i)
            = vertexAt a ((ranges.get ⟨j, hj⟩).start + i)))) ∧
    (∀ (a : BAttr) (n : ℕ), a.array.length = n * a.itemSize →
      (repackAttr a [⟨0, n⟩]).array = a.array) := by
  refine ⟨rfl, rfl, ?_, ?_⟩
  · intro a hb
    refine ⟨repackArray_eq_flatten a.array a.itemSize ranges hb,
      repackArray_length a.array a.itemSize ranges, ?_, ?_⟩
    · intro hpos
      unfold BAttr.count repackAttr
      simp only
      rw [repackArray_length a.array a.itemSize ranges]
      exact Nat.mul_div_cancel (totalCount ranges) hpos
    · intro j hj i hi
      unfold vertexAt repackAttr
      simp only
      rw [repackArray_eq_flatten a.array a.itemSize ranges hb]
      exact flatten_extract_vertex a.array a.itemSize ranges hb j hj i hi
  · intro a n h
    unfold repackAttr
    simp only
    exact repackArray_full a.array a.itemSize n h

/-- C3 witness: the repack conclusions evaluated on a three-vertex
attribute of item size two, repacked through the ranges [2, 1) and
[0, 1) (picking the third vertex then the first), and the full-range
identity on the same attribute. -/
theorem repack_completeness_witness :
    (repackAttr ⟨2, [1, 2, 3, 4, 5, 6], false⟩ [⟨2, 1⟩, ⟨0, 1⟩]).array
        = (([⟨2, 1⟩, ⟨0, 1⟩] : List VRange).map fun r =>
            subarraySpan [1, 2, 3, 4, 5, 6] (r.start * 2)
              (r.start * 2 + r.count * 2)).flatten ∧
    (repackAttr ⟨2, [1, 2, 3, 4, 5, 6], false⟩ [⟨2, 1⟩, ⟨0, 1⟩]).count
        = totalCount [⟨2, 1⟩, ⟨0, 1⟩] ∧
    (repackAttr ⟨2, [1, 2, 3, 4, 5, 6], false⟩ [⟨0, 3⟩]).array
        = [1, 2, 3, 4, 5, 6] := by
  have h := repack_completeness ⟨[("position",
    ⟨2, [1, 2, 3, 4, 5, 6], false⟩)], [], false, (0, 0)⟩
    [⟨2, 1⟩, ⟨0, 1⟩]
  refine ⟨(h.2.2.1 ⟨2, [1, 2, 3, 4, 5, 6], false⟩ (by decide)).1,
    (h.2.2.1 ⟨2, [1, 2, 3, 4, 5, 6], false⟩ (by decide)).2.2.1
      (by decide), ?_⟩
  exact h.2.2.2 ⟨2, [1, 2, 3, 4, 5, 6], false⟩ 3 (by decide)

/-- Total count distributes over list append. -/
theorem totalCount_append (l1 l2 : List VRange) :
    totalCount (l1 ++ l2) = totalCount l1 + totalCount l2 := by
  calc totalCount (l1 ++ l2)
      = l2.foldl (fun sum range => sum + range.count)
          (l1.foldl (fun sum range => sum + range.count) 0) := by
        unfold totalCount
        rw [List.foldl_append]
    _ = l1.foldl (fun sum range => sum + range.count) 0
        + totalCount l2 := totalCount_go l2 _
    _ = totalCount l1 + totalCount l2 := rfl

/-- Adding a range to a bucket map raises the total bucket count by the
range count. -/
theorem addRange_sum (acc : List (ℕ × List VRange)) (idx : ℕ)
    (r : VRange) :
    ((addRange acc idx r).map fun b => totalCount b.2).sum
      = ((acc.map fun b => totalCount b.2).sum) + r.count := by
  have h0 : totalCount [] = 0 := rfl
  induction acc with
  | nil => simp [addRange, totalCount_cons, h0]
  | cons b rest ih =>
    by_cases hb : b.1 = idx
    · simp [addRange, hb, totalCount_append, totalCount_cons, h0]
      omega
    · simp only [addRange, if_neg hb, List.map_cons, List.sum_cons, ih]
      omega

/-- The keys of a bucket map after adding a range: unchanged when the
key already exists, appended otherwise. -/
theorem addRange_keys (acc : List (ℕ × List VRange)) (idx : ℕ)
    (r : VRange) :
    (addRange acc idx r).map Prod.fst
      = if idx ∈ acc.map Prod.fst then acc.map Prod.fst
        else acc.map Prod.fst ++ [idx] := by
  induction acc with
  | nil => simp [addRange]
  | cons b rest ih =>
    by_cases hb : b.1 = idx
    · simp [addRange, hb]
    · have hne : ¬ idx = b.1 := fun h => hb h.symm
      simp only [addRange, if_neg hb, List.map_cons, ih, List.mem_cons,
        hne, false_or]
      by_cases hm : idx ∈ rest.map Prod.fst
      · simp [hm]
      · simp [hm]

/-- Adding a range keeps the bucket keys duplicate-free. -/
theorem addRange_keys_nodup (acc : List (ℕ × List VRange)) (idx : ℕ)
    (r : VRange) (h : (acc.map Prod.fst).Nodup) :
    ((addRange acc idx r).map Prod.fst).Nodup := by
  rw [addRange_keys]
  split_ifs with hm
  · exact h
  · simp [List.nodup_append, h, hm]

/-- Adding a range inserts the key into the bucket key set. -/
theorem addRange_keys_toFinset (acc : List (ℕ × List VRange)) (idx : ℕ)
    (r : VRange) :
    ((addRange acc idx r).map Prod.fst).toFinset
      = insert idx (acc.map Prod.fst).toFinset := by
  rw [addRange_keys]
  split_ifs with hm
  · rw [Finset.insert_eq_self.mpr (List.mem_toFinset.mpr hm)]
  · ext x
    simp [List.toFinset_append, or_comm]

/-- A clamped material index always lands inside the material array. -/
theorem clampIndex_lt (L : ℕ) (mi : Option ℤ) (h : 1 ≤ L) :
    clampIndex L mi < L := by
  unfold clampIndex
  have h1 : min ((L : ℤ) - 1) (max 0 (mi.getD 0)) ≤ (L : ℤ) - 1 :=
    min_le_left _ _
  have h2 : (min ((L : ℤ) - 1) (max 0 (mi.getD 0))).toNat
      ≤ ((L : ℤ) - 1).toNat := Int.toNat_le_toNat h1
  have h3 : ((L : ℤ) - 1).toNat = L - 1 := by omega
  omega

/-- In a material list whose entries are all truthy, every in-bounds
slot reads back truthy. -/
theorem getD_true (mats : List Bool) (hmats : ∀ b ∈ mats, b = true)
    (idx : ℕ) (h : idx < mats.length) : mats.getD idx false = true := by
  rw [List.getD_eq_getElem mats false h]
  exact hmats _ (List.getElem_mem h)

/-- The bucket walk accumulates exactly the group counts on top of the
seed map, when every material slot is truthy. -/
theorem bucketGroupsAux_sum (mats : List Bool)
    (hmats : ∀ b ∈ mats, b = true) (hL : 1 ≤ mats.length)
    (gs : List GGroup) (acc : List (ℕ × List VRange)) :
    ((bucketGroupsAux mats acc gs).map fun b => totalCount b.2).sum
      = ((acc.map fun b => totalCount b.2).sum)
        + (gs.map GGroup.count).sum := by
  induction gs generalizing acc with
  | nil => simp [bucketGroupsAux]
  | cons g gs ih =>
    have htrue := getD_true mats hmats _
      (clampIndex_lt mats.length g.materialIndex hL)
    simp only [bucketGroupsAux, htrue, if_true]
    rw [ih, addRange_sum]
    simp only [List.map_cons, List.sum_cons]
    omega

/-- The bucket walk keeps the key list duplicate-free. -/
theorem bucketGroupsAux_keys_nodup (mats : List Bool) (gs : List GGroup)
    (acc : List (ℕ × List VRange)) (h : (acc.map Prod.fst).Nodup) :
    ((bucketGroupsAux mats acc gs).map Prod.fst).Nodup := by
  induction gs generalizing acc with
  | nil => simpa [bucketGroupsAux] using h
  | cons g gs ih =>
    simp only [bucketGroupsAux]
    split_ifs with htrue
    · exact ih _ (addRange_keys_nodup _ _ _ h)
    · exact ih _ h

/-- The key set produced by the bucket walk is the seed key set together
with the clamped indices of all groups, when every material slot is
truthy. -/
theorem bucketGroupsAux_keys_toFinset (mats : List Bool)
    (hmats : ∀ b ∈ mats, b = true) (hL : 1 ≤ mats.length)
    (gs : List GGroup) (acc : List (ℕ × List VRange)) :
    ((bucketGroupsAux mats acc gs).map Prod.fst).toFinset
      = (acc.map Prod.fst).toFinset
        ∪ (gs.map fun g =>
            clampIndex mats.length g.materialIndex).toFinset := by
  induction gs generalizing acc with
  | nil => simp [bucketGroupsAux]
  | cons g gs ih =>
    have htrue := getD_true mats hmats _
      (clampIndex_lt mats.length g.materialIndex hL)
    simp only [bucketGroupsAux, htrue, if_true]
    rw [ih, addRange_keys_toFinset]
    simp only [List.map_cons, List.toFinset_cons]
    rw [Finset.insert_union, Finset.union_insert]

/-- Looking a key up in the repacked attribute list maps the original
lookup result through the repacker. -/
theorem lookup_map_repack (l : List (String × BAttr)) (k : String)
    (rs : List VRange) :
    ((l.map fun p => (p.1, repackAttr p.2 rs)).lookup k)
      = (l.lookup k).map fun a => repackAttr a rs := by
  induction l with
  | nil => rfl
  | cons p rest ih =>
    simp only [List.map_cons, List.lookup]
    cases h : k == p.1
    · simpa using ih
    · simp

/-- The vertex count of a geometry rebuilt from ranges is the summed
range count, whenever the source has a position attribute with a
positive item size. -/
theorem positionCount_build (working : BGeometry) (rs : List VRange)
    (pa : BAttr) (hpos : working.attributes.lookup "position" = some pa)
    (hsz : 0 < pa.itemSize) :
    positionCount (buildGeometryFromRanges working rs)
      = totalCount rs := by
  unfold positionCount buildGeometryFromRanges
  simp only
  rw [lookup_map_repack, hpos, Option.map_some']
  unfold BAttr.count repackAttr
  simp only
  rw [repackArray_length]
  exact Nat.mul_div_cancel (totalCount rs) hsz

/-- The vertex counts of the kept per-bucket clones sum to the total
bucket count: skipped buckets are exactly the empty ones. -/
theorem splitClones_sum (working : BGeometry) (pa : BAttr)
    (hpos : working.attributes.lookup "position" = some pa)
    (hsz : 0 < pa.itemSize) (buckets : List (ℕ × List VRange)) :
    (((buckets.filterMap fun b =>
        let geometry := buildGeometryFromRanges working b.2
        if positionCount geometry = 0 then none
        else some (some b.1, geometry)).map
      fun rec => positionCount rec.2).sum)
      = (buckets.map fun b => totalCount b.2).sum := by
  induction buckets with
  | nil => rfl
  | cons b rest ih =>
    have hpc : positionCount (buildGeometryFromRanges working b.2)
        = totalCount b.2 := positionCount_build working b.2 pa hpos hsz
    by_cases h0 : positionCount (buildGeometryFromRanges working b.2) = 0
    · rw [List.filterMap_cons_none (by dsimp only; rw [if_pos h0])]
      simp only [List.map_cons, List.sum_cons]
      rw [ih, ← hpc, h0, Nat.zero_add]
    · rw [List.filterMap_cons_some (by dsimp only; rw [if_neg h0])]
      simp only [List.map_cons, List.sum_cons]
      rw [ih, hpc]

/-- Every kept per-bucket clone has a non-zero vertex count. -/
theorem splitClones_nonzero (working : BGeometry)
    (buckets : List (ℕ × List VRange)) :
    ∀ rec ∈ (buckets.filterMap fun b =>
        let geometry := buildGeometryFromRanges working b.2
        if positionCount geometry = 0 then none
        else some (some b.1, geometry)),
      positionCount rec.2 ≠ 0 := by
  intro rec hrec
  obtain ⟨b, _, hfb⟩ := List.mem_filterMap.mp hrec
  dsimp only at hfb
  by_cases h0 : positionCount (buildGeometryFromRanges working b.2) = 0
  · rw [if_pos h0] at hfb
    exact absurd hfb (Option.noConfusion)
  · rw [if_neg h0] at hfb
    obtain rfl := Option.some.inj hfb
    exact h0

/-- C4: Split count invariant.  For a multi-material mesh (at least two
truthy material slots) whose non-indexed working geometry has a
position attribute of positive item size and at least one vertex, and
whose effective geometry groups cover the vertex buffer (their counts
sum to the vertex count, as non-overlapping covering groups do), the
split produces at most as many records as there are distinct
bounds-clamped material indices across the groups, every produced
record has a non-zero vertex count, and the record vertex counts sum to
the source vertex count. -/
theorem split_count_invariant (mats : List Bool) (working : BGeometry)
    (groups : List GGroup) (pa : BAttr)
    (hmats : ∀ b ∈ mats, b = true)
    (hlen : 2 ≤ mats.length)
    (hpos : working.attributes.lookup "position" = some pa)
    (hsz : 0 < pa.itemSize)
    (hn : 0 < positionCount working)
    (hcov : ((effectiveGroups working groups).map GGroup.count).sum
      = positionCount working) :
    (splitRecords mats working groups).length
        ≤ ((effectiveGroups working groups).map fun g =>
            clampIndex mats.length g.materialIndex).toFinset.card ∧
    (∀ rec ∈ splitRecords mats working groups,
      positionCount rec.2 ≠ 0) ∧
    ((splitRecords mats working groups).map fun rec =>
        positionCount rec.2).sum = positionCount working := by
  have hL : 1 ≤ mats.length := le_trans (by norm_num) hlen
  have hsum_buckets :
      ((bucketGroups mats (effectiveGroups working groups)).map
        fun b => totalCount b.2).sum = positionCount working := by
    unfold bucketGroups
    rw [bucketGroupsAux_sum mats hmats hL (effectiveGroups working groups)
      []]
    simpa using hcov
  have hclone_sum :
      (((bucketGroups mats (effectiveGroups working groups)).filterMap
          fun b =>
            let geometry := buildGeometryFromRanges working b.2
            if positionCount geometry = 0 then none
            else some (some b.1, geometry)).map
        fun rec => positionCount rec.2).sum = positionCount working :=
    (splitClones_sum working pa hpos hsz _).trans hsum_buckets
  have hclones_ne :
      ¬ ((bucketGroups mats (effectiveGroups working groups)).filterMap
          fun b =>
            let geometry := buildGeometryFromRanges working b.2
            if positionCount geometry = 0 then none
            else some (some b.1, geometry)).isEmpty = true := by
    intro h
    rw [List.isEmpty_iff] at h
    rw [h] at hclone_sum
    simp at hclone_sum
    omega
  have hrecords : splitRecords mats working groups
      = (bucketGroups mats (effectiveGroups working groups)).filterMap
          fun b =>
            let geometry := buildGeometryFromRanges working b.2
            if positionCount geometry = 0 then none
            else some (some b.1, geometry) := by
    unfold splitRecords
    rw [if_neg hclones_ne]
  refine ⟨?_, ?_, ?_⟩
  · rw [hrecords]
    calc ((bucketGroups mats (effectiveGroups working groups)).filterMap
          fun b =>
            let geometry := buildGeometryFromRanges working b.2
            if positionCount geometry = 0 then none
            else some (some b.1, geometry)).length
        ≤ (bucketGroups mats (effectiveGroups working groups)).length :=
          List.length_filterMap_le _ _
      _ = ((bucketGroups mats
            (effectiveGroups working groups)).map Prod.fst).length := by
          rw [List.length_map]
      _ = ((bucketGroups mats
            (effectiveGroups working groups)).map
              Prod.fst).toFinset.card := by
          have hnodup : ((bucketGroups mats
              (effectiveGroups working groups)).map Prod.fst).Nodup :=
            bucketGroupsAux_keys_nodup mats _ [] (by simp)
          rw [List.toFinset_card_of_nodup hnodup]
      _ = ((effectiveGroups working groups).map fun g =>
            clampIndex mats.length g.materialIndex).toFinset.card := by
          unfold bucketGroups
          rw [bucketGroupsAux_keys_toFinset mats hmats hL _ []]
          simp
  · rw [hrecords]
    exact splitClones_nonzero working _
  · rw [hrecords]
    exact hclone_sum

/-- C4 witness: the split invariant evaluated on a four-vertex geometry
with two covering groups over two materials: at most two records, and
the record vertex counts sum to the four source vertices. -/
theorem split_count_invariant_witness :
    (splitRecords [true, true] splitWorking splitGroups).length
        ≤ ((effectiveGroups splitWorking splitGroups).map fun g =>
            clampIndex ([true, true] : List Bool).length
              g.materialIndex).toFinset.card ∧
    (∀ rec ∈ splitRecords [true, true] splitWorking splitGroups,
      positionCount rec.2 ≠ 0) ∧
    ((splitRecords [true, true] splitWorking splitGroups).map fun rec =>
        positionCount rec.2).sum = positionCount splitWorking ∧
    positionCount splitWorking = 4 := by
  have h := split_count_invariant [true, true] splitWorking splitGroups
    ⟨1, [1, 2, 3, 4], false⟩ (by decide) (by decide) (by decide)
    (by decide) (by decide) (by decide)
  exact ⟨h.1, h.2.1, h.2.2, by decide⟩

/-- Clamping an already-clamped value changes nothing. -/
theorem clamp_clamp (v : JSNum) :
    clamp (JSNum.finite (clamp v 0 1)) 0 1 = clamp v 0 1 :=
  clamp_of_mem _ (clamp_nonneg v) (clamp_le_one v)

/-- One sanitization pass establishes the sanitized-state invariant. -/
theorem sanitize_sanitized (m : MaterialState) (g : GeometryUV) :
    Sanitized (sanitizeMaterial m g).1 (sanitizeMaterial m g).2 := by
  unfold sanitizeMaterial
  constructor
  case bump => rfl
  case displacement => rfl
  case emissiveM => rfl
  case light =>
    dsimp only
    split_ifs <;> rfl
  case specular => rfl
  case env => rfl
  case gradient => rfl
  case clearcoat => rfl
  case clearcoatNormal => rfl
  case clearcoatRough => rfl
  case sheenColor => rfl
  case sheenRough => rfl
  case transmission => rfl
  case thickness => rfl
  case iridescence => rfl
  case iridescenceThick => rfl
  case anisotropy => rfl
  case backup =>
    dsimp only
    rcases hm : m.map with _ | t <;> rcases hc : m.color with _ | c <;>
      rcases hb : m.baseColorBackup with _ | b <;> simp [hm, hc, hb]
  case mapSRGB =>
    dsimp only
    rcases hm : m.map with _ | t
    · simp
    · intro t2 ht2
      simp only [Option.map_some'] at ht2
      obtain rfl := Option.some.inj ht2
      split_ifs with hcs
      · rfl
      · exact not_not.mp (fun h => h hcs) |> fun h => by
          simpa using not_not.mp (not_not_intro hcs)
  case whiteColor =>
    dsimp only
    rcases hm : m.map with _ | t <;> rcases hc : m.color with _ | c <;>
      simp [hm, hc]
  case aoI =>
    exact ⟨_, rfl, clamp_nonneg _, clamp_le_one _⟩
  case met =>
    exact ⟨_, rfl, clamp_nonneg _, clamp_le_one _⟩
  case rough =>
    exact ⟨_, rfl, clamp_nonneg _, clamp_le_one _⟩
  case opac =>
    exact ⟨_, rfl, clamp_nonneg _, clamp_le_one _⟩
  case alphaT =>
    refine ⟨_, rfl, ?_, ?_⟩ <;> dsimp only <;> split_ifs <;>
      first
        | exact le_refl 0
        | exact zero_le_one
        | exact clamp_nonneg _
        | exact clamp_le_one _
  case maskCase =>
    intro q hq hpos
    by_cases hmask : 0 < clamp m.alphaTest 0 1
    · refine ⟨?_, ?_, ?_, ?_⟩ <;> simp [hmask]
    · exfalso
      have h0 : clamp m.alphaTest 0 1 = 0 :=
        le_antisymm (not_lt.mp hmask) (clamp_nonneg _)
      dsimp only at hq
      rw [h0, ite_self] at hq
      have h1 : (0 : ℚ) = q := JSNum.finite.inj hq
      rw [← h1] at hpos
      exact lt_irrefl 0 hpos
  case noMaskZero =>
    intro q hq hnot
    dsimp only at hq
    by_cases hmask : 0 < clamp m.alphaTest 0 1
    · exfalso
      have hd : decide (clamp m.alphaTest 0 1 > 0) = true :=
        decide_eq_true hmask
      rw [hd] at hq
      simp only [Bool.not_true, Bool.false_and, Bool.false_eq_true,
        if_false] at hq
      have h1 := JSNum.finite.inj hq
      rw [← h1] at hnot
      exact hnot hmask
    · have h0 : clamp m.alphaTest 0 1 = 0 :=
        le_antisymm (not_lt.mp hmask) (clamp_nonneg _)
      rw [h0, ite_self] at hq
      exact (JSNum.finite.inj hq).symm
  case noMaskCase =>
    intro q hq hnot
    by_cases hmask : 0 < clamp m.alphaTest 0 1
    · exfalso
      dsimp only at hq
      have hd : decide (clamp m.alphaTest 0 1 > 0) = true :=
        decide_eq_true hmask
      rw [hd] at hq
      simp only [Bool.not_true, Bool.false_and, Bool.false_eq_true,
        if_false] at hq
      have h1 := JSNum.finite.inj hq
      rw [← h1] at hnot
      exact hnot hmask
    · have hd0 : decide (clamp m.alphaTest 0 1 > 0) = false := by
        simpa using hmask
      refine ⟨?_, ?_, ?_, ?_⟩
      · intro hcond
        dsimp only at hcond
        rw [clamp_clamp] at hcond
        dsimp only
        simp only [hd0, Bool.not_false, Bool.true_and, Bool.or_assoc,
          hcond, Bool.or_true]
      · dsimp only
      · dsimp only
        simp only [hd0, Bool.false_eq_true, if_false]
      · dsimp only
        simp only [hd0, Bool.false_eq_true, if_false]
  case aoUV =>
    dsimp only
    split_ifs <;> intro h <;>
      cases hu : g.hasUV <;> cases hu2 : g.hasUV2 <;> simp_all

/-- A material and geometry satisfying the sanitized-state invariant are
left exactly unchanged by the sanitization pass. -/
theorem sanitized_fix (m : MaterialState) (g : GeometryUV)
    (h : Sanitized m g) : sanitizeMaterial m g = (m, g) := by
  obtain ⟨uv, uv2⟩ := g
  obtain ⟨f1, f2, f3, f4, f5, f6, f7, f8, f9, f10, f11, f12, f13, f14,
    f15, f16, f17, col, bck, mp, ao, amap, aoiv, mev, rov, opv, atv,
    trv, blv, dwv, mov, nuv⟩ := m
  obtain ⟨s1, s2, s3, s4, s5, s6, s7, s8, s9, s10, s11, s12, s13, s14,
    s15, s16, s17, sback, smap, swhite, ⟨qa, hqa, hqa0, hqa1⟩,
    ⟨qm, hqm, hqm0, hqm1⟩, ⟨qr, hqr, hqr0, hqr1⟩, ⟨qo, hqo, hqo0, hqo1⟩,
    ⟨qt, hqt, hqt0, hqt1⟩, smask, szero, snomask, saouv⟩ := h
  dsimp only at *
  subst s1 s2 s3 s4 s5 s6 s7 s8 s9 s10 s11 s12 s13 s14 s15 s16 s17
  subst hqa hqm hqr hqo hqt
  rw [clamp_of_mem qo hqo0 hqo1] at snomask
  have hca := clamp_of_mem qa hqa0 hqa1
  have hcm := clamp_of_mem qm hqm0 hqm1
  have hcr := clamp_of_mem qr hqr0 hqr1
  have hco := clamp_of_mem qo hqo0 hqo1
  have hct := clamp_of_mem qt hqt0 hqt1
  by_cases hmask : 0 < qt
  · obtain ⟨ht1, ht2, ht3, ht4⟩ := smask qt rfl hmask
    subst ht1 ht2 ht3 ht4
    have hd : decide (qt > 0) = true := decide_eq_true hmask
    rcases mp with _ | t
    · rcases col with _ | c
      · cases ao
        · simp [sanitizeMaterial, hd, hca, hcm, hcr, hco, hct]
        · have huv2 : uv2 = true := saouv rfl
          subst huv2
          simp [sanitizeMaterial, hd, hca, hcm, hcr, hco, hct]
      · obtain ⟨bv, hbv⟩ := Option.isSome_iff_exists.mp (sback (by simp))
        subst hbv
        cases ao
        · simp [sanitizeMaterial, hd, hca, hcm, hcr, hco, hct]
        · have huv2 : uv2 = true := saouv rfl
          subst huv2
          simp [sanitizeMaterial, hd, hca, hcm, hcr, hco, hct]
    · have hcs : t.colorSpace = ColorSpace.sRGB := smap t rfl
      rcases col with _ | c
      · cases ao
        · simp [sanitizeMaterial, hd, hca, hcm, hcr, hco, hct, hcs]
        · have huv2 : uv2 = true := saouv rfl
          subst huv2
          simp [sanitizeMaterial, hd, hca, hcm, hcr, hco, hct, hcs]
      · have hwc : c = 0xffffff := swhite (by simp) c rfl
        subst hwc
        obtain ⟨bv, hbv⟩ := Option.isSome_iff_exists.mp (sback (by simp))
        subst hbv
        cases ao
        · simp [sanitizeMaterial, hd, hca, hcm, hcr, hco, hct, hcs]
        · have huv2 : uv2 = true := saouv rfl
          subst huv2
          simp [sanitizeMaterial, hd, hca, hcm, hcr, hco, hct, hcs]
  · have hqz := szero qt rfl hmask
    subst hqz
    obtain ⟨htr, ht2, ht3, ht4⟩ := snomask 0 rfl (lt_irrefl 0)
    subst ht2 ht3 ht4
    have hd0 : decide ((0 : ℚ) > 0) = false := by norm_num
    have hz : decide ((0 : ℚ) ≠ 0) = false := by norm_num
    have hsbt : ((trv || decide (qo < 1)) || amap) = trv := by
      cases trv
      · simp only [Bool.false_or]
        by_cases hda : (decide (qo < 1) || amap) = true
        · exact absurd (htr hda) (by simp)
        · simpa using hda
      · simp
    rcases mp with _ | t
    · rcases col with _ | c
      · cases ao
        · simp [sanitizeMaterial, hd0, hz, hsbt, hca, hcm, hcr, hco, hct]
        · have huv2 : uv2 = true := saouv rfl
          subst huv2
          simp [sanitizeMaterial, hd0, hz, hsbt, hca, hcm, hcr, hco, hct]
      · obtain ⟨bv, hbv⟩ := Option.isSome_iff_exists.mp (sback (by simp))
        subst hbv
        cases ao
        · simp [sanitizeMaterial, hd0, hz, hsbt, hca, hcm, hcr, hco, hct]
        · have huv2 : uv2 = true := saouv rfl
          subst huv2
          simp [sanitizeMaterial, hd0, hz, hsbt, hca, hcm, hcr, hco, hct]
    · have hcs : t.colorSpace = ColorSpace.sRGB := smap t rfl
      rcases col with _ | c
      · cases ao
        · simp [sanitizeMaterial, hd0, hz, hsbt, hca, hcm, hcr, hco, hct,
            hcs]
        · have huv2 : uv2 = true := saouv rfl
          subst huv2
          simp [sanitizeMaterial, hd0, hz, hsbt, hca, hcm, hcr, hco, hct,
            hcs]
      · have hwc : c = 0xffffff := swhite (by simp) c rfl
        subst hwc
        obtain ⟨bv, hbv⟩ := Option.isSome_iff_exists.mp (sback (by simp))
        subst hbv
        cases ao
        · simp [sanitizeMaterial, hd0, hz, hsbt, hca, hcm, hcr, hco, hct,
            hcs]
        · have huv2 : uv2 = true := saouv rfl
          subst huv2
          simp [sanitizeMaterial, hd0, hz, hsbt, hca, hcm, hcr, hco, hct,
            hcs]

/-- C5: Material sanitization idempotence.  Running the sanitization
pass on the material and geometry produced by a first run changes
nothing: no texture slot, scalar, flag, color, alpha-mode tag or UV
attribute differs from the single-run result. -/
theorem material_sanitization_idempotent (m : MaterialState)
    (g : GeometryUV) :
    sanitizeMaterial (sanitizeMaterial m g).1 (sanitizeMaterial m g).2
      = sanitizeMaterial m g :=
  (sanitized_fix _ _ (sanitize_sanitized m g)).trans Prod.mk.eta

end Theorems

end Uploader
